import Mathlib

/-!
Shallow embedding of the glidercli repository (vdutts7/glidercli):
  * `src/lib/bcdp.js`  — BrowserCDP request/response correlator
  * `src/lib/bserve.js` — CDP session relay server
  * `src/bin/glider.js` — YAML task runner (`cmdRun`) and autonomous loop (`cmdLoop`)

JavaScript values are embedded as the inductive `J`; machine state is passed
explicitly; asynchronous completions (websocket replies, timers, HTTP results)
are supplied by explicit environments/oracles so that each handler becomes a
pure function on state.
-/

set_option maxRecDepth 4000

/-- JavaScript/JSON values as they occur on the wire and in state. -/
inductive J where
  | null
  | undef
  | jbool (b : Bool)
  | jnum (n : Int)
  | jstr (s : String)
  | jarr (xs : List J)
  | jobj (fields : List (String × J))
deriving Repr

/-- JS truthiness (`if (x)`): null/undefined/false/0/"" are falsy, objects and
arrays are always truthy. -/
def jsTruthy : J → Bool
  | .null => false
  | .undef => false
  | .jbool b => b
  | .jnum n => n != 0
  | .jstr s => s != ""
  | .jarr _ => true
  | .jobj _ => true

mutual
/-- JS `String(x)` coercion: `String(null) = "null"`, arrays join their
elements with commas (null/undefined elements become empty), plain objects
stringify to `"[object Object]"`. -/
def jsToString : J → String
  | .null => "null"
  | .undef => "undefined"
  | .jbool b => if b then "true" else "false"
  | .jnum n => toString n
  | .jstr s => s
  | .jobj _ => "[object Object]"
  | .jarr xs => jsArrString xs

/-- Stringify the elements of a JS array, comma separated. -/
def jsArrString : List J → String
  | [] => ""
  | x :: rest =>
    let sx :=
      match x with
      | .null => ""
      | .undef => ""
      | v => jsToString v
    match rest with
    | [] => sx
    | _ :: _ => sx ++ "," ++ jsArrString rest
end

/-- `charsStartWith s pat` : does the char list `s` start with `pat`? -/
def charsStartWith : List Char → List Char → Bool
  | _, [] => true
  | [], _ :: _ => false
  | c :: cs, p :: ps => c == p && charsStartWith cs ps

/-- `charsContain s pat` : does `s` contain `pat` as a contiguous run? -/
def charsContain : List Char → List Char → Bool
  | [], pat => charsStartWith [] pat
  | c :: rest, pat => charsStartWith (c :: rest) pat || charsContain rest pat

/-- JS `s.includes(pat)` (substring containment; empty pattern matches). -/
def jsIncludes (s pat : String) : Bool :=
  charsContain s.data pat.data

/-- Look a key up in a JS object represented as a field list. -/
def jGetField (fields : List (String × J)) (k : String) : Option J :=
  (fields.find? (fun p => p.1 == k)).map (·.2)

/-- Field access `p?.k` on an optional JS value: `none`/non-object gives
`undefined` propagation (`none`). -/
def jGet (p : Option J) (k : String) : Option J :=
  match p with
  | some (J.jobj fields) => jGetField fields k
  | _ => none

/-- JS object spread-with-override `{...o, k: v}`: if `k` is already a key its
value is updated in place, otherwise `k` is appended last. -/
def jSetKey (o : List (String × J)) (k : String) (v : J) : List (String × J) :=
  if o.any (fun p => p.1 == k) then
    o.map (fun p => if p.1 == k then (k, v) else p)
  else
    o ++ [(k, v)]

/-! ## Request/Response Correlator — `BrowserCDP` in `src/lib/bcdp.js`

`send` allocates `id = ++this.messageId`, stores `{resolve, reject}` in
`this.pending`, and arms a 30s timer whose callback deletes the entry and
rejects with `Timeout`.  `_handleMessage` on a reply (`msg.id !== undefined`)
looks the id up in `pending`; if present it deletes the entry, clears the
timer (via the wrapped continuations) and fires resolve or reject; if absent
the reply is dropped.  Because the entry is deleted and the timer cleared in
the same synchronous step that fires a continuation, "the id is in `pending`"
coincides exactly with "the timer for the id is still armed"; the embedding
therefore guards the timer-fire event by membership in `pending`. -/

/-- How a pending call's continuation was fired. -/
inductive CallOutcome where
  | resolved (r : J)
  | rejectedRemote (msg : String)
  | rejectedTimeout
deriving Repr

/-- Correlator state: the monotone id counter, the pending-call table (ids
only; the continuations are represented by the `fired` log), and the log of
continuations fired so far. -/
structure BCDPState where
  messageId : Nat
  pending : List Nat
  fired : List (Nat × CallOutcome)

/-- The initial correlator state of a fresh `BrowserCDP` object. -/
def bcdpInit : BCDPState :=
  { messageId := 0, pending := [], fired := [] }

/-- `BrowserCDP.send`: allocate `id = ++messageId` and insert it into the
pending table (the wire write and the timer arming carry no further state).
Returns the allocated id with the new state. -/
def bcdpSend (s : BCDPState) : Nat × BCDPState :=
  let id := s.messageId + 1
  (id, { s with messageId := id, pending := s.pending ++ [id] })

/-- Asynchronous completions delivered to the correlator: a reply message
carrying an id (with an optional error payload), or the 30s timeout timer of
a call firing. -/
inductive BCDPEv where
  | reply (id : Nat) (err : Option String) (result : J)
  | timerFire (id : Nat)

/-- One completion step.  `reply`: `_handleMessage` — if the id is pending,
delete it and fire resolve (no error payload) or reject (`RemoteError`);
otherwise drop the message.  `timerFire`: the `setTimeout` callback in `send`
— delete the entry and reject with `Timeout`; the timer can only still be
armed while the entry is pending (a fired continuation has already called
`clearTimeout`). -/
def bcdpStep (s : BCDPState) : BCDPEv → BCDPState
  | .reply id err result =>
    if id ∈ s.pending then
      { s with
        pending := s.pending.erase id
        fired := s.fired ++ [(id,
          match err with
          | some m => CallOutcome.rejectedRemote m
          | none => CallOutcome.resolved result)] }
    else s
  | .timerFire id =>
    if id ∈ s.pending then
      { s with
        pending := s.pending.erase id
        fired := s.fired ++ [(id, CallOutcome.rejectedTimeout)] }
    else s

/-- Run a sequence of completions. -/
def bcdpRun (s : BCDPState) (evs : List BCDPEv) : BCDPState :=
  evs.foldl bcdpStep s

/-- How many times the continuations of call `i` have fired. -/
def firedCount (s : BCDPState) (i : Nat) : Nat :=
  (s.fired.filter (fun p => p.1 == i)).length

/-- Does an event mention call `i`? -/
def mentionsCall (i : Nat) : BCDPEv → Bool
  | .reply id _ _ => id == i
  | .timerFire id => id == i

/-! ## Session Relay — `src/lib/bserve.js`

Global mutable state: `extensionWs` (the single upstream extension socket or
`null`), `playwrightClients` (a `Map` of clientId → websocket), and
`connectedTargets` (a `Map` of sessionId → `{sessionId, targetId, targetInfo}`
in insertion order).  Websockets are embedded as opaque numeric connection
handles; everything written to a socket is recorded as an effect. -/

/-- One tracked session: `connectedTargets.set(params.sessionId, {sessionId,
targetId: params.targetInfo.targetId, targetInfo: params.targetInfo})`. -/
structure TargetEntry where
  sessionId : String
  targetId : String
  targetInfo : List (String × J)
deriving Repr

/-- The relay's global state. -/
structure RelayState where
  extensionWs : Option Nat
  playwrightClients : List (String × Nat)
  connectedTargets : List TargetEntry

/-- Observable socket actions performed by a relay handler. -/
inductive RelayEff where
  | closeConn (conn : Nat) (code : Nat) (reason : String)
  | sendConn (conn : Nat) (msg : J)
deriving Repr

/-- The connection a relay effect acts on. -/
def RelayEff.conn : RelayEff → Nat
  | .closeConn c _ _ => c
  | .sendConn c _ => c

/-- `Map.set` keyed by `sessionId`: update in place if present, else append
(JS `Map` preserves insertion order and updates do not move the key). -/
def targetsSet (ts : List TargetEntry) (t : TargetEntry) : List TargetEntry :=
  if ts.any (fun u => u.sessionId == t.sessionId) then
    ts.map (fun u => if u.sessionId == t.sessionId then t else u)
  else
    ts ++ [t]

/-- `handleExtensionConnection(ws)`: if an upstream connection is active,
close it with code 4001 and reason `Replaced` and clear `connectedTargets`;
then install the new socket as `extensionWs`. -/
def handleExtensionConnection (s : RelayState) (newConn : Nat) :
    RelayState × List RelayEff :=
  match s.extensionWs with
  | some old =>
    ({ s with extensionWs := some newConn, connectedTargets := [] },
     [RelayEff.closeConn old 4001 "Replaced"])
  | none =>
    ({ s with extensionWs := some newConn }, [])

/-- The extension socket's `close` handler (runs when the websocket's close
event fires, in particular after the old socket was closed with `Replaced`):
null out `extensionWs`, clear `connectedTargets`, close every downstream
client socket with code 1000 / `Extension disconnected`, and clear the client
table. -/
def extensionClosed (s : RelayState) : RelayState × List RelayEff :=
  ({ s with extensionWs := none, connectedTargets := [], playwrightClients := [] },
   s.playwrightClients.map (fun c => RelayEff.closeConn c.2 1000 "Extension disconnected"))

/-- A `forwardCDPEvent` message from the extension, as consumed by
`handleExtensionMessage` for session tracking. -/
inductive ExtEvent where
  | attached (sessionId targetId : String) (targetInfo : List (String × J))
  | detached (sessionId : String)
  | infoChanged (targetId : String) (targetInfo : List (String × J))
  | otherEvent (method : String) (params : J)

/-- The target-tracking part of `handleExtensionMessage` for a forwarded CDP
event: `Target.attachedToTarget` inserts a session, `Target.detachedFromTarget`
removes it, `Target.targetInfoChanged` refreshes the metadata of the first
entry with the matching `targetId`; every other event leaves the table
untouched.  (The broadcast of the event to downstream clients does not change
relay state.) -/
def handleForwardedEvent (s : RelayState) : ExtEvent → RelayState
  | .attached sessionId targetId targetInfo =>
    { s with connectedTargets :=
        targetsSet s.connectedTargets ⟨sessionId, targetId, targetInfo⟩ }
  | .detached sessionId =>
    { s with connectedTargets :=
        s.connectedTargets.filter (fun t => t.sessionId != sessionId) }
  | .infoChanged targetId targetInfo =>
    match s.connectedTargets.find? (fun t => t.targetId == targetId) with
    | some t =>
      { s with connectedTargets :=
          s.connectedTargets.map (fun u =>
            if u.sessionId == t.sessionId then { u with targetInfo := targetInfo } else u) }
    | none => s
  | .otherEvent _ _ => s

/-- `GET /targets`: `Array.from(connectedTargets.values())`. -/
def targetsEndpoint (s : RelayState) : List TargetEntry :=
  s.connectedTargets

/-- Is the event an attach event? -/
def ExtEvent.isAttach : ExtEvent → Bool
  | .attached _ _ _ => true
  | _ => false

/-- The fixed `Browser.getVersion` result answered locally by the relay. -/
def browserGetVersionResult : J :=
  J.jobj [("protocolVersion", J.jstr "1.3"),
          ("product", J.jstr "Chrome/Extension-Bridge"),
          ("revision", J.jstr "1.0.0"),
          ("userAgent", J.jstr "CDP-Bridge/1.0.0"),
          ("jsVersion", J.jstr "V8")]

/-- Outcome of `routeCDPCommand` before touching the network: a locally
computed result, a locally thrown error, or a forward to the extension via
`sendToExtension({method: 'forwardCDPCommand', params: {sessionId, method,
params}})`. -/
inductive Routed where
  | localOk (r : J)
  | localErr (msg : String)
  | forward (sessionId : Option String) (method : String) (params : Option J)
deriving Repr

/-- Session substitution at the top of `routeCDPCommand`: `if (!sessionId &&
connectedTargets.size > 0) sessionId = first target's sessionId`. -/
def resolveSessionId (s : RelayState) (sid : Option String) : Option String :=
  match sid with
  | some x => some x
  | none => s.connectedTargets.head?.map (·.sessionId)

/-- The `targetId` string carried in `params`, if any. -/
def paramsTargetId (params : Option J) : Option String :=
  match jGet params "targetId" with
  | some (J.jstr t) => some t
  | _ => none

/-- `routeCDPCommand({method, params, sessionId})`: substitute the first
session when none was given, answer the fixed local subset from the session
table, and forward everything else upstream. -/
def routeCDPCommand (s : RelayState) (method : String) (params : Option J)
    (sid0 : Option String) : Routed :=
  let sessionId := resolveSessionId s sid0
  if method = "Browser.getVersion" then
    .localOk browserGetVersionResult
  else if method = "Target.setAutoAttach" ∨ method = "Target.setDiscoverTargets" then
    .localOk (J.jobj [])
  else if method = "Target.getTargets" then
    .localOk (J.jobj [("targetInfos",
      J.jarr (s.connectedTargets.map (fun t =>
        J.jobj (jSetKey t.targetInfo "attached" (J.jbool true)))))])
  else if method = "Target.attachToTarget" then
    match (paramsTargetId params).bind
        (fun tid => s.connectedTargets.find? (fun t => t.targetId == tid)) with
    | some t => .localOk (J.jobj [("sessionId", J.jstr t.sessionId)])
    | none =>
      .localErr ("Target " ++
        (match paramsTargetId params with | some t => t | none => "undefined") ++
        " not found")
  else if method = "Target.getTargetInfo" then
    match (paramsTargetId params).bind
        (fun tid => s.connectedTargets.find? (fun t => t.targetId == tid)) with
    | some t => .localOk (J.jobj [("targetInfo", J.jobj t.targetInfo)])
    | none =>
      match sessionId.bind
          (fun sid => s.connectedTargets.find? (fun t => t.sessionId == sid)) with
      | some t => .localOk (J.jobj [("targetInfo", J.jobj t.targetInfo)])
      | none =>
        .localOk (J.jobj [("targetInfo",
          match s.connectedTargets.head? with
          | some t => J.jobj t.targetInfo
          | none => J.undef)])
  else
    .forward sessionId method params

/-- The six method names `routeCDPCommand` answers without forwarding. -/
def localCDPMethods : List String :=
  ["Browser.getVersion", "Target.setAutoAttach", "Target.setDiscoverTargets",
   "Target.getTargets", "Target.attachToTarget", "Target.getTargetInfo"]

/-- Is a routing outcome a forward to the upstream peer? -/
def Routed.isForward : Routed → Bool
  | .forward _ _ _ => true
  | _ => false

/-- Interpret a routing outcome against an upstream oracle supplying the raw
result (or thrown error) of a forwarded `sendToExtension` call; the raw
result is returned unmodified. -/
def interpRouted (oracle : Option String → String → Option J → Except String J) :
    Routed → Except String J
  | .localOk r => .ok r
  | .localErr m => .error m
  | .forward sid m p => oracle sid m p

/-- An inbound downstream CDP message `{id, method, params, sessionId}`. -/
structure CDPMsg where
  id : Nat
  method : String
  params : Option J
  sessionId : Option String

/-- The synthesized `Target.attachedToTarget` events replayed to a client
right after acknowledging `Target.setAutoAttach` (one per tracked session,
metadata spread with `attached: true`, `waitingForDebugger: false`). -/
def setAutoAttachReplay (s : RelayState) (conn : Nat) : List RelayEff :=
  s.connectedTargets.map (fun t =>
    RelayEff.sendConn conn (J.jobj
      [("method", J.jstr "Target.attachedToTarget"),
       ("params", J.jobj
         [("sessionId", J.jstr t.sessionId),
          ("targetInfo", J.jobj (jSetKey t.targetInfo "attached" (J.jbool true))),
          ("waitingForDebugger", J.jbool false)])]))

/-- A reply object `{id, sessionId, result}` / `{id, sessionId, error:
{message}}` as serialized by `JSON.stringify` (an `undefined` sessionId is
dropped). -/
def cdpReplyObj (id : Nat) (sid : Option String) (body : String × J) : J :=
  J.jobj ([("id", J.jnum id)] ++
    (match sid with | some x => [("sessionId", J.jstr x)] | none => []) ++
    [body])

/-- The downstream message handler in `handleCDPConnection`: refuse when no
extension is connected, otherwise route the command, acknowledge with the
result (or error), and — for a sessionless `Target.setAutoAttach` — replay
one synthesized attach event per tracked session, all on the requesting
socket only. -/
def handleCDPMessage (s : RelayState) (conn : Nat)
    (oracle : Option String → String → Option J → Except String J)
    (msg : CDPMsg) : List RelayEff :=
  match s.extensionWs with
  | none =>
    [RelayEff.sendConn conn (J.jobj
      [("id", J.jnum msg.id),
       ("error", J.jobj [("message", J.jstr "Extension not connected")])])]
  | some _ =>
    match interpRouted oracle (routeCDPCommand s msg.method msg.params msg.sessionId) with
    | .ok result =>
      RelayEff.sendConn conn (cdpReplyObj msg.id msg.sessionId ("result", result)) ::
      (if msg.method = "Target.setAutoAttach" ∧ msg.sessionId = none then
        setAutoAttachReplay s conn
      else [])
    | .error e =>
      [RelayEff.sendConn conn (cdpReplyObj msg.id msg.sessionId
        ("error", J.jobj [("message", J.jstr e)]))]

/-! ## YAML Task Runner — `cmdRun` in `src/bin/glider.js`

`cmdRun` iterates over the task's steps; each step dispatches on the
operation name.  The delegated commands (`cmdGoto`, `cmdEval`, `cmdClick`,
`cmdType`, `cmdScreenshot`, `cmdText`) catch their own failures and call
`process.exit(1)` — they never throw back to `cmdRun`.  The `assert` case is
inlined: it evaluates the expression via `httpPost` and on a non-`true` value
sets `failed = true`; a throw from that `httpPost` is caught by `cmdRun`'s
own `catch`, which also sets `failed = true`.  `wait`, `log` and unknown
commands never fail. -/

/-- A step of a `glider run` task file, by operation name. -/
inductive RunStep where
  | navigate (url : String)
  | wait (secs : Nat)
  | evalStep (expr : String)
  | click (sel : String)
  | typeStep (arg : Option (String × String))
  | screenshot (p : String)
  | textStep
  | logStep (msg : String)
  | assert (expr : String)
  | unknown (cmd : String)

/-- Environment for one task run: `delegated i` tells whether the delegated
command helper invoked by step `i` returned normally (`true`) or called
`process.exit(1)` (`false`); `assertRes i` is the outcome of the `assert`
step's `httpPost` — a thrown error or the evaluated value
(`result?.value`, `J.undef` when missing). -/
structure RunEnv where
  delegated : Nat → Bool
  assertRes : Nat → Except String J

/-- How a `cmdRun` invocation ends: the final summary with the `failed` flag,
or `process.exit(1)` raised inside the step that a delegated helper failed
on. -/
inductive RunOutcome where
  | finished (failed : Bool)
  | exitedAt (stepIdx : Nat)
deriving Repr, DecidableEq

/-- Observable trace of a task run: the indices of steps that started
executing, the `[LOG]` lines emitted, and for every step that ran to its end
whether it turned the task's `failed` flag on. -/
structure RunTrace where
  executed : List Nat
  logs : List String
  stepFailures : List Bool
deriving Repr, DecidableEq

/-- Execute the steps of `cmdRun` from index `i` with current `failed` flag
folded into the per-step failure list; stops early only when a delegated
helper calls `process.exit(1)`. -/
def runStepsFrom (env : RunEnv) : List RunStep → Nat → RunOutcome × RunTrace
  | [], _ => (.finished false, ⟨[], [], []⟩)
  | step :: rest, i =>
    let runRest := fun (flag : Bool) (logsHere : List String) =>
      let (out, tr) := runStepsFrom env rest (i + 1)
      let out' := match out with
        | .finished f => RunOutcome.finished (flag || f)
        | .exitedAt j => RunOutcome.exitedAt j
      (out', RunTrace.mk (i :: tr.executed) (logsHere ++ tr.logs) (flag :: tr.stepFailures))
    match step with
    | .navigate _ | .evalStep _ | .click _ | .screenshot _ | .textStep =>
      if env.delegated i then runRest false []
      else (.exitedAt i, ⟨[i], [], []⟩)
    | .typeStep arg =>
      match arg with
      | some _ =>
        if env.delegated i then runRest false []
        else (.exitedAt i, ⟨[i], [], []⟩)
      | none => runRest false []
    | .wait _ => runRest false []
    | .logStep msg => runRest false [msg]
    | .unknown _ => runRest false []
    | .assert _ =>
      match env.assertRes i with
      | .ok (J.jbool true) => runRest false []
      | .ok _ => runRest true []
      | .error _ => runRest true []

/-- `cmdRun` over a loaded task's step list: execute all steps, collecting the
`failed` flag; the task "completed successfully" iff no step failed. -/
def cmdRunModel (env : RunEnv) (steps : List RunStep) : RunOutcome × RunTrace :=
  runStepsFrom env steps 0

/-! ## Autonomous Loop — `cmdLoop` in `src/bin/glider.js`

The task file is read and YAML-parsed **once**, before the loop; inside the
loop the file is re-read only to test `currentContent.includes(marker) ||
currentContent.includes('DONE')`.  The loop body increments
`state.iteration`, then checks the two bounds (iteration count, wall clock),
then runs the steps inside `try`, then performs the two completion checks,
records the outcome, and finally checkpoints every `checkpointInterval`
iterations.  A `break` skips the checkpoint.  Step failures inside the
delegated helpers (`cmdGoto`, `cmdClick`, `cmdScreenshot`) call
`process.exit(1)`; only the inlined `eval` step's `httpPost` can throw into
the loop's `catch`, which records the error and sleeps
`min(30, 2^errors.length)` seconds. -/

/-- A step of a loop task (the `cmdLoop` switch supports exactly these). -/
inductive LoopStep where
  | goto (url : String)
  | wait (secs : Nat)
  | eval (expr : String)
  | click (sel : String)
  | screenshot (p : String)
  | unknown (cmd : String)
deriving Repr, DecidableEq

/-- Is a loop step an `eval` step (the only one that writes
`state.lastOutput`)? -/
def LoopStep.isEval : LoopStep → Bool
  | .eval _ => true
  | _ => false

/-- Result of one remote call made by a loop step: the call returned a value
(`result?.value`, `J.undef` when absent), the awaited `httpPost` threw, or
the delegated helper terminated the process with `process.exit(1)`.
(`goto`/`click`/`screenshot` catch their own errors and exit, so for them a
`threw` oracle answer also means process exit; `eval` posts directly and can
only return or throw; `wait`/unknown steps make no call.) -/
inductive LoopStepRes where
  | ok (value : J)
  | threw (msg : String)
  | exited

/-- Configuration of one `cmdLoop` invocation (CLI options plus the steps
parsed from the task file before the loop starts). -/
structure LoopCfg where
  maxIterations : Nat
  maxRuntime : Nat
  checkpointInterval : Nat
  marker : String
  steps : List LoopStep

/-- Environment of a loop run: `stepRes k i` is the outcome of the remote
call made by step `i` during iteration `k`; `fileContent k` is what
`fs.readFileSync(taskFileOrPrompt)` returns at iteration `k`'s completion
check (`none` when the file does not exist); `elapsed k` is the wall-clock
seconds elapsed at iteration `k`'s bound check. -/
structure LoopEnv where
  stepRes : Nat → Nat → LoopStepRes
  fileContent : Nat → Option String
  elapsed : Nat → Nat

/-- The mutable `state` object of `cmdLoop` (the parts the loop reads or
writes; `startTime` is represented by `LoopEnv.elapsed`, and `pending` is
never touched by the code). -/
structure LoopState where
  iteration : Nat
  completedRecs : List Nat
  status : String
  lastOutput : J
  errors : List (Nat × String)

/-- The initial loop state (`status: 'running'`, `lastOutput: null`). -/
def loopInit : LoopState :=
  { iteration := 0, completedRecs := [], status := "running",
    lastOutput := J.null, errors := [] }

/-- Observable loop actions: a step beginning to execute, a backoff sleep, a
checkpoint `saveState()`, and the unconditional final `saveState()`. -/
inductive LoopEff where
  | execStep (iter : Nat) (idx : Nat) (step : LoopStep)
  | backoff (secs : Nat)
  | checkpoint (snapshot : LoopState)
  | finalSave (snapshot : LoopState)

/-- Outcome of running the steps of one pass: all steps completed (with the
value `state.lastOutput` holds afterwards), an exception reached the loop's
`catch` (with the `lastOutput` written by earlier `eval` steps retained), or
a delegated helper killed the process. -/
inductive PassResult where
  | passOk (lastOut : J)
  | passThrew (msg : String) (lastOut : J)
  | passExited

/-- Run the steps of iteration `k` starting at index `i` with current
`lastOutput`; returns the executed-step effects together with the outcome.
Only `eval` writes `lastOutput`; only `eval` can throw; `goto`, `click` and
`screenshot` exit the process on failure; `wait` and unknown commands always
succeed. -/
def runLoopSteps (env : LoopEnv) (k : Nat) : List LoopStep → Nat → J →
    List LoopEff × PassResult
  | [], _, lastOut => ([], .passOk lastOut)
  | step :: rest, i, lastOut =>
    let eff := LoopEff.execStep k i step
    match step with
    | .goto _ | .click _ | .screenshot _ =>
      match env.stepRes k i with
      | .ok _ =>
        let (effs, r) := runLoopSteps env k rest (i + 1) lastOut
        (eff :: effs, r)
      | _ => ([eff], .passExited)
    | .eval _ =>
      match env.stepRes k i with
      | .ok v =>
        let (effs, r) := runLoopSteps env k rest (i + 1) v
        (eff :: effs, r)
      | .threw m => ([eff], .passThrew m lastOut)
      | .exited => ([eff], .passThrew "exited" lastOut)
    | .wait _ | .unknown _ =>
      let (effs, r) := runLoopSteps env k rest (i + 1) lastOut
      (eff :: effs, r)

/-- The completion-marker test on `state.lastOutput`:
`state.lastOutput && String(state.lastOutput).includes(completionMarker)`. -/
def outputHasMarker (lastOut : J) (marker : String) : Bool :=
  jsTruthy lastOut && jsIncludes (jsToString lastOut) marker

/-- The completion test on the task file: the file exists and its current
contents include the marker or the literal `"DONE"`. -/
def fileHasMarker (content : Option String) (marker : String) : Bool :=
  match content with
  | some c => jsIncludes c marker || jsIncludes c "DONE"
  | none => false

/-- Result of one execution of the `while` body. -/
inductive IterOut where
  | normal (s : LoopState) (effs : List LoopEff)
  | exitedProc (effs : List LoopEff)

/-- The checkpoint write at the bottom of the loop body (skipped by every
`break`): saves iff `iteration % checkpointInterval === 0`. -/
def checkpointEff (cfg : LoopCfg) (s : LoopState) : List LoopEff :=
  if s.iteration % cfg.checkpointInterval = 0 then [LoopEff.checkpoint s] else []

/-- One execution of the `while (state.status === 'running')` body:
increment `iteration`; stop on `iteration > maxIterations`
(`max_iterations`) or `elapsed > maxRuntime` (`timeout`), both checked before
the pass; otherwise run the steps, perform the two completion checks, record
success, or catch an error and back off `min(30, 2^errors.length)` seconds;
finally checkpoint unless a `break` fired. -/
def loopIteration (cfg : LoopCfg) (env : LoopEnv) (s : LoopState) : IterOut :=
  let s1 := { s with iteration := s.iteration + 1 }
  let k := s1.iteration
  if k > cfg.maxIterations then
    .normal { s1 with status := "max_iterations" } []
  else if env.elapsed k > cfg.maxRuntime then
    .normal { s1 with status := "timeout" } []
  else
    match runLoopSteps env k cfg.steps 0 s1.lastOutput with
    | (effs, .passExited) => .exitedProc effs
    | (effs, .passOk lout) =>
      let s2 := { s1 with lastOutput := lout }
      if outputHasMarker lout cfg.marker then
        .normal { s2 with status := "completed" } effs
      else if fileHasMarker (env.fileContent k) cfg.marker then
        .normal { s2 with status := "completed" } effs
      else
        let s3 := { s2 with completedRecs := s2.completedRecs ++ [k] }
        .normal s3 (effs ++ checkpointEff cfg s3)
    | (effs, .passThrew m lout) =>
      let s2 := { s1 with lastOutput := lout, errors := s1.errors ++ [(k, m)] }
      let b := min 30 (2 ^ s2.errors.length)
      .normal s2 (effs ++ [LoopEff.backoff b] ++ checkpointEff cfg s2)

/-- Result of a whole `cmdLoop` run: terminal state plus effects (ending in
the unconditional final `saveState()`), a `process.exit` inside a step, or
exhausted modelling fuel while still `running`. -/
inductive LoopRunOut where
  | done (final : LoopState) (effs : List LoopEff)
  | procExited (effs : List LoopEff)
  | outOfFuel (s : LoopState) (effs : List LoopEff)

/-- Iterate the loop body while `status === 'running'`, with fuel bounding
the modelled number of iterations (any fuel `> maxIterations` is enough). -/
def runLoopAux (cfg : LoopCfg) (env : LoopEnv) : Nat → LoopState →
    List LoopEff → LoopRunOut
  | 0, s, acc => .outOfFuel s acc
  | fuel + 1, s, acc =>
    if s.status = "running" then
      match loopIteration cfg env s with
      | .normal s' effs => runLoopAux cfg env fuel s' (acc ++ effs)
      | .exitedProc effs => .procExited (acc ++ effs)
    else
      .done s (acc ++ [LoopEff.finalSave s])

/-- A full `cmdLoop` run from the initial state. -/
def cmdLoopRun (cfg : LoopCfg) (env : LoopEnv) (fuel : Nat) : LoopRunOut :=
  runLoopAux cfg env fuel loopInit []

/-- The iterations whose pass started executing steps, as recorded in the
effect trace. -/
def passIters (effs : List LoopEff) : List Nat :=
  effs.filterMap (fun e =>
    match e with
    | LoopEff.execStep k _ _ => some k
    | _ => none)

/-- The backoff sleeps of the trace, in order. -/
def backoffSecs (effs : List LoopEff) : List Nat :=
  effs.filterMap (fun e =>
    match e with
    | LoopEff.backoff b => some b
    | _ => none)

/-- The terminal state of a loop run, when the loop finished on its own. -/
def loopRunFinal : LoopRunOut → Option LoopState
  | .done f _ => some f
  | _ => none

/-- The effect trace of a loop run. -/
def loopRunEffs : LoopRunOut → List LoopEff
  | .done _ e => e
  | .procExited e => e
  | .outOfFuel _ e => e

/-- The effects emitted by one execution of the loop body. -/
def iterEffs : IterOut → List LoopEff
  | .normal _ e => e
  | .exitedProc e => e

/-- The executed-step effects of a trace (checkpoints, backoffs and saves
filtered out). -/
def execEffs (effs : List LoopEff) : List LoopEff :=
  effs.filter (fun e =>
    match e with
    | LoopEff.execStep _ _ _ => true
    | _ => false)

/-- Single-call invariant of the correlator, for call id `i`: either the call
is pending (exactly one table entry, no continuation fired yet) or it is
settled (no table entry, exactly one continuation fired). -/
def callInv (s : BCDPState) (i : Nat) : Prop :=
  (s.pending.count i = 1 ∧ firedCount s i = 0) ∨
  (s.pending.count i = 0 ∧ firedCount s i = 1)

/-! Concrete fixtures used by counterexamples and witnesses. -/

/-- Loop configuration of the spec's `maxIterations = 3` scenario, with a
single `eval` step. -/
def cfgC1 : LoopCfg :=
  ⟨3, 3600, 5, "LOOP_COMPLETE", [LoopStep.eval "0"]⟩

/-- Environment whose eval step always returns `"working"` (no marker), with
no task file on disk and zero elapsed time. -/
def envC1 : LoopEnv :=
  ⟨fun _ _ => .ok (J.jstr "working"), fun _ => none, fun _ => 0⟩

/-- Environment whose eval step always throws — every iteration records an
error. -/
def envC9 : LoopEnv :=
  ⟨fun _ _ => .threw "boom", fun _ => none, fun _ => 0⟩

/-- Loop configuration for the completion-on-iteration-2 scenario. -/
def cfgC6 : LoopCfg :=
  ⟨10, 3600, 5, "LOOP_COMPLETE", [LoopStep.eval "0"]⟩

/-- Environment whose eval step returns the marker on iteration 2 and a
neutral string otherwise. -/
def envC6 : LoopEnv :=
  ⟨fun k _ => if k = 2 then .ok (J.jstr "xx LOOP_COMPLETE yy")
              else .ok (J.jstr "working"),
   fun _ => none, fun _ => 0⟩

/-- A task-file content that an external editor wrote during the run: it
defines different steps (a `click`) and contains neither the marker nor
`DONE`. -/
def editedTaskContent : String :=
  "name: edited\nsteps:\n  - click: button.submit\n"

/-- Loop configuration for the task-file-edit scenario: the steps parsed at
load time are a single `eval`. -/
def cfgC5 : LoopCfg :=
  ⟨2, 3600, 5, "LOOP_COMPLETE", [LoopStep.eval "document.title"]⟩

/-- Environment for the task-file-edit scenario: from the first completion
check on, the file on disk already has the edited content. -/
def envC5 : LoopEnv :=
  ⟨fun _ _ => .ok (J.jstr "working"), fun _ => some editedTaskContent, fun _ => 0⟩

/-- Task-run environment in which every delegated helper fails (and thus
calls `process.exit(1)`). -/
def envClickFail : RunEnv :=
  ⟨fun _ => false, fun _ => .error "unused"⟩

/-- Task-run environment in which helpers succeed and the assert expression
evaluates to `false`. -/
def envAssertFalse : RunEnv :=
  ⟨fun _ => true, fun _ => .ok (J.jbool false)⟩

/-- A relay state with a live extension socket, two downstream clients and
two tracked sessions. -/
def relayDemo : RelayState :=
  ⟨some 7, [("alice", 21), ("bob", 22)],
   [⟨"s1", "t1", [("url", J.jstr "https://a.example")]⟩,
    ⟨"s2", "t2", [("url", J.jstr "https://b.example")]⟩]⟩

/-- An upstream oracle answering every forwarded call with a fixed raw
result. -/
def demoOracle : Option String → String → Option J → Except String J :=
  fun _ _ _ => .ok (J.jstr "raw-result")

/-- Loop configuration whose steps contain no `eval` step (a single
`wait`), for the frame property of `state.lastOutput`. -/
def cfgC10 : LoopCfg :=
  ⟨10, 3600, 5, "LOOP_COMPLETE", [LoopStep.wait 1]⟩

/-! # Theorems -/

/-! ## Correlator lemmas (claim C2) -/

theorem bcdpStep_reply_pending (s : BCDPState) (id : Nat) (err : Option String)
    (r : J) (hid : id ∈ s.pending) :
    bcdpStep s (BCDPEv.reply id err r) =
      { s with pending := s.pending.erase id,
               fired := s.fired ++ [(id,
                 match err with
                 | some m => CallOutcome.rejectedRemote m
                 | none => CallOutcome.resolved r)] } := by
  simp only [bcdpStep]
  rw [if_pos hid]

theorem bcdpStep_reply_absent (s : BCDPState) (id : Nat) (err : Option String)
    (r : J) (hid : id ∉ s.pending) :
    bcdpStep s (BCDPEv.reply id err r) = s := by
  simp only [bcdpStep]
  rw [if_neg hid]

theorem bcdpStep_timer_pending (s : BCDPState) (id : Nat)
    (hid : id ∈ s.pending) :
    bcdpStep s (BCDPEv.timerFire id) =
      { s with pending := s.pending.erase id,
               fired := s.fired ++ [(id, CallOutcome.rejectedTimeout)] } := by
  simp only [bcdpStep]
  rw [if_pos hid]

theorem bcdpStep_timer_absent (s : BCDPState) (id : Nat)
    (hid : id ∉ s.pending) :
    bcdpStep s (BCDPEv.timerFire id) = s := by
  simp only [bcdpStep]
  rw [if_neg hid]

theorem firedCount_append (s : BCDPState) (p : List Nat) (o : CallOutcome)
    (id i : Nat) :
    firedCount { messageId := s.messageId, pending := p,
                 fired := s.fired ++ [(id, o)] } i
      = firedCount s i + (if id = i then 1 else 0) := by
  by_cases h : id = i <;> simp [firedCount, List.filter_append, h]

theorem firedCount_step_mono (s : BCDPState) (e : BCDPEv) (i : Nat) :
    firedCount s i ≤ firedCount (bcdpStep s e) i := by
  cases e with
  | reply id err r =>
    by_cases hid : id ∈ s.pending
    · rw [bcdpStep_reply_pending s id err r hid, firedCount_append]
      omega
    · rw [bcdpStep_reply_absent s id err r hid]
  | timerFire id =>
    by_cases hid : id ∈ s.pending
    · rw [bcdpStep_timer_pending s id hid, firedCount_append]
      omega
    · rw [bcdpStep_timer_absent s id hid]

theorem callInv_step (s : BCDPState) (i : Nat) (e : BCDPEv) (h : callInv s i) :
    callInv (bcdpStep s e) i := by
  cases e with
  | reply id err r =>
    by_cases hid : id ∈ s.pending
    · rw [bcdpStep_reply_pending s id err r hid]
      by_cases hii : id = i
      · subst hii
        rcases h with ⟨hc, hf⟩ | ⟨hc, hf⟩
        · right
          refine ⟨?_, ?_⟩
          · show List.count id (s.pending.erase id) = 0
            have := List.count_erase_self (a := id) (l := s.pending)
            omega
          · rw [firedCount_append]
            simp
            omega
        · exfalso
          have := List.count_pos_iff.mpr hid
          omega
      · rcases h with ⟨hc, hf⟩ | ⟨hc, hf⟩
        · left
          refine ⟨?_, ?_⟩
          · show List.count i (s.pending.erase id) = 1
            rw [List.count_erase_of_ne (Ne.symm hii)]
            exact hc
          · rw [firedCount_append]
            simp [hii]
            exact hf
        · right
          refine ⟨?_, ?_⟩
          · show List.count i (s.pending.erase id) = 0
            rw [List.count_erase_of_ne (Ne.symm hii)]
            exact hc
          · rw [firedCount_append]
            simp [hii]
            exact hf
    · rw [bcdpStep_reply_absent s id err r hid]
      exact h
  | timerFire id =>
    by_cases hid : id ∈ s.pending
    · rw [bcdpStep_timer_pending s id hid]
      by_cases hii : id = i
      · subst hii
        rcases h with ⟨hc, hf⟩ | ⟨hc, hf⟩
        · right
          refine ⟨?_, ?_⟩
          · show List.count id (s.pending.erase id) = 0
            have := List.count_erase_self (a := id) (l := s.pending)
            omega
          · rw [firedCount_append]
            simp
            omega
        · exfalso
          have := List.count_pos_iff.mpr hid
          omega
      · rcases h with ⟨hc, hf⟩ | ⟨hc, hf⟩
        · left
          refine ⟨?_, ?_⟩
          · show List.count i (s.pending.erase id) = 1
            rw [List.count_erase_of_ne (Ne.symm hii)]
            exact hc
          · rw [firedCount_append]
            simp [hii]
            exact hf
        · right
          refine ⟨?_, ?_⟩
          · show List.count i (s.pending.erase id) = 0
            rw [List.count_erase_of_ne (Ne.symm hii)]
            exact hc
          · rw [firedCount_append]
            simp [hii]
            exact hf
    · rw [bcdpStep_timer_absent s id hid]
      exact h

theorem callInv_run (s : BCDPState) (i : Nat) (evs : List BCDPEv)
    (h : callInv s i) : callInv (bcdpRun s evs) i := by
  induction evs generalizing s with
  | nil => exact h
  | cons e rest ih => exact ih (bcdpStep s e) (callInv_step s i e h)

theorem settled_stable (s : BCDPState) (i : Nat) (evs : List BCDPEv)
    (h : List.count i s.pending = 0 ∧ firedCount s i = 1) :
    List.count i (bcdpRun s evs).pending = 0 ∧ firedCount (bcdpRun s evs) i = 1 := by
  induction evs generalizing s with
  | nil => exact h
  | cons e rest ih =>
    have hinv : callInv (bcdpStep s e) i := callInv_step s i e (Or.inr h)
    have hmono := firedCount_step_mono s e i
    rcases hinv with ⟨_, hf⟩ | hr
    · omega
    · exact ih (bcdpStep s e) hr

theorem step_settles_of_mention (s : BCDPState) (i : Nat) (e : BCDPEv)
    (h : callInv s i) (hm : mentionsCall i e = true) :
    List.count i (bcdpStep s e).pending = 0 ∧ firedCount (bcdpStep s e) i = 1 := by
  rcases h with ⟨hc, hf⟩ | ⟨hc, hf⟩
  · have hmem : i ∈ s.pending := List.count_pos_iff.mp (by omega)
    cases e with
    | reply id err r =>
      have hii : id = i := by simpa [mentionsCall] using hm
      subst hii
      rw [bcdpStep_reply_pending s id err r hmem]
      refine ⟨?_, ?_⟩
      · show List.count id (s.pending.erase id) = 0
        have := List.count_erase_self (a := id) (l := s.pending)
        omega
      · rw [firedCount_append]
        simp
        omega
    | timerFire id =>
      have hii : id = i := by simpa [mentionsCall] using hm
      subst hii
      rw [bcdpStep_timer_pending s id hmem]
      refine ⟨?_, ?_⟩
      · show List.count id (s.pending.erase id) = 0
        have := List.count_erase_self (a := id) (l := s.pending)
        omega
      · rw [firedCount_append]
        simp
        omega
  · have hinv := callInv_step s i e (Or.inr ⟨hc, hf⟩)
    have hmono := firedCount_step_mono s e i
    rcases hinv with ⟨_, hf'⟩ | hr
    · omega
    · exact hr

theorem run_mention_settles (s : BCDPState) (i : Nat) (evs : List BCDPEv)
    (h : callInv s i) (hm : evs.any (mentionsCall i) = true) :
    List.count i (bcdpRun s evs).pending = 0 ∧ firedCount (bcdpRun s evs) i = 1 := by
  induction evs generalizing s with
  | nil => simp at hm
  | cons e rest ih =>
    by_cases he : mentionsCall i e = true
    · exact settled_stable (bcdpStep s e) i rest (step_settles_of_mention s i e h he)
    · have hrest : rest.any (mentionsCall i) = true := by
        simp only [List.any_cons, Bool.or_eq_true] at hm
        tauto
      exact ih (bcdpStep s e) (callInv_step s i e h) hrest

/-- C2: for a pending call, (a) the timeout firing rejects it with `Timeout`
and frees its pending-table entry; (b) a reply for an identifier no longer in
the table has no observable effect; (c) along any sequence of completions at
most one continuation fires for the call, and exactly one fires as soon as
the sequence delivers the call's timeout or any reply carrying its identifier
— never both, never neither. -/
theorem C2_correlator_exactly_once :
    ∀ (s : BCDPState) (i : Nat),
      List.count i s.pending = 1 → firedCount s i = 0 →
      ((bcdpStep s (BCDPEv.timerFire i)).fired
          = s.fired ++ [(i, CallOutcome.rejectedTimeout)] ∧
        List.count i (bcdpStep s (BCDPEv.timerFire i)).pending = 0) ∧
      (∀ (s' : BCDPState) (err : Option String) (r : J),
        i ∉ s'.pending → bcdpStep s' (BCDPEv.reply i err r) = s') ∧
      (∀ evs : List BCDPEv,
        firedCount (bcdpRun s evs) i ≤ 1 ∧
        (evs.any (mentionsCall i) = true → firedCount (bcdpRun s evs) i = 1)) := by
  intro s i hc hf
  have hmem : i ∈ s.pending := List.count_pos_iff.mp (by omega)
  have hinv : callInv s i := Or.inl ⟨hc, hf⟩
  refine ⟨⟨?_, ?_⟩, ?_, ?_⟩
  · rw [bcdpStep_timer_pending s i hmem]
  · exact (step_settles_of_mention s i (BCDPEv.timerFire i) hinv (by simp [mentionsCall])).1
  · intro s' err r hnot
    exact bcdpStep_reply_absent s' i err r hnot
  · intro evs
    refine ⟨?_, ?_⟩
    · rcases callInv_run s i evs hinv with ⟨_, h0⟩ | ⟨_, h1⟩ <;> omega
    · intro hany
      exact (run_mention_settles s i evs hinv hany).2

/-- Witness for C2: the freshly sent call with id 1; its timer fires, then a
late reply arrives; exactly one continuation (the `Timeout` rejection) has
fired and the table entry is gone. -/
theorem C2_correlator_exactly_once_witness :
    (bcdpStep (bcdpSend bcdpInit).2 (BCDPEv.timerFire 1)).fired
        = [(1, CallOutcome.rejectedTimeout)] ∧
    firedCount (bcdpRun (bcdpSend bcdpInit).2
        [BCDPEv.timerFire 1, BCDPEv.reply 1 none J.null]) 1 = 1 := by
  have h := C2_correlator_exactly_once (bcdpSend bcdpInit).2 1 (by decide) (by decide)
  refine ⟨?_, ?_⟩
  · simpa using h.1.1
  · exact (h.2.2 [BCDPEv.timerFire 1, BCDPEv.reply 1 none J.null]).2 (by decide)

/-! ## Relay lemmas (claims C3, C7, C8) -/

theorem noattach_keeps_empty (evs : List ExtEvent) :
    ∀ s : RelayState, s.connectedTargets = [] →
      (∀ e ∈ evs, e.isAttach = false) →
      (evs.foldl handleForwardedEvent s).connectedTargets = [] := by
  induction evs with
  | nil => intro s hs _; exact hs
  | cons e rest ih =>
    intro s hs hall
    apply ih
    · cases e with
      | attached sid tid ti =>
        have := hall (ExtEvent.attached sid tid ti) (List.mem_cons_self _ _)
        simp [ExtEvent.isAttach] at this
      | detached sid => simp [handleForwardedEvent, hs]
      | infoChanged tid ti => simp [handleForwardedEvent, hs]
      | otherEvent m p => simpa [handleForwardedEvent] using hs
    · intro x hx
      exact hall x (List.mem_cons_of_mem _ hx)

/-- C3: accepting a new upstream connection while one is active closes the
old one with code 4001 / reason `Replaced` and clears all tracked sessions,
so `GET /targets` is empty and stays empty across any sequence of
non-attach events; the new socket is the only tracked upstream connection;
the old socket's close handler then closes every downstream client socket
(its channel is stale). -/
theorem C3_upstream_replacement :
    ∀ (s : RelayState) (old newConn : Nat),
      s.extensionWs = some old →
      (handleExtensionConnection s newConn).2
          = [RelayEff.closeConn old 4001 "Replaced"] ∧
      ((handleExtensionConnection s newConn).1.connectedTargets = [] ∧
        targetsEndpoint (handleExtensionConnection s newConn).1 = []) ∧
      (handleExtensionConnection s newConn).1.extensionWs = some newConn ∧
      ((handleExtensionConnection s newConn).1.playwrightClients
          = s.playwrightClients ∧
        ∀ c ∈ s.playwrightClients,
          RelayEff.closeConn c.2 1000 "Extension disconnected"
            ∈ (extensionClosed (handleExtensionConnection s newConn).1).2) ∧
      (∀ evs : List ExtEvent, (∀ e ∈ evs, e.isAttach = false) →
        (evs.foldl handleForwardedEvent
          (handleExtensionConnection s newConn).1).connectedTargets = []) := by
  intro s old newConn h
  have heq : handleExtensionConnection s newConn =
      ({ s with extensionWs := some newConn, connectedTargets := [] },
       [RelayEff.closeConn old 4001 "Replaced"]) := by
    simp [handleExtensionConnection, h]
  refine ⟨?_, ⟨?_, ?_⟩, ?_, ⟨?_, ?_⟩, ?_⟩
  · rw [heq]
  · rw [heq]
  · rw [heq]; rfl
  · rw [heq]
  · rw [heq]
  · intro c hc
    rw [heq]
    simp only [extensionClosed]
    exact List.mem_map_of_mem _ hc
  · intro evs hall
    exact noattach_keeps_empty evs _ (by rw [heq]) hall

/-- Witness for C3: the demo relay with upstream socket 7 replaced by
socket 9; both clients are closed and the target list stays empty across a
detach and an unrelated event. -/
theorem C3_upstream_replacement_witness :
    (handleExtensionConnection relayDemo 9).2
        = [RelayEff.closeConn 7 4001 "Replaced"] ∧
    targetsEndpoint (handleExtensionConnection relayDemo 9).1 = [] ∧
    RelayEff.closeConn 22 1000 "Extension disconnected"
        ∈ (extensionClosed (handleExtensionConnection relayDemo 9).1).2 ∧
    (([ExtEvent.detached "s1",
       ExtEvent.otherEvent "Page.loadEventFired" J.null].foldl
        handleForwardedEvent
        (handleExtensionConnection relayDemo 9).1).connectedTargets = []) := by
  have h := C3_upstream_replacement relayDemo 7 9 (by rfl)
  refine ⟨h.1, h.2.1.2, ?_, ?_⟩
  · exact h.2.2.2.1.2 ("bob", 22) (by simp [relayDemo])
  · refine h.2.2.2.2 _ ?_
    intro e he
    fin_cases he <;> rfl

theorem route_setAutoAttach (s : RelayState) (p : Option J) (sid : Option String) :
    routeCDPCommand s "Target.setAutoAttach" p sid = .localOk (J.jobj []) := by
  simp [routeCDPCommand]

/-- C7: with the extension connected, a downstream `Target.setAutoAttach`
without a session identifier is acknowledged with the locally computed empty
result and immediately followed by one synthesized `Target.attachedToTarget`
event per tracked session — exactly N of them, each carrying that session's
identifier and last-known metadata (`attached: true`), all sent on the
requesting connection only; any other command (or one carrying a session
identifier) gets its reply with no synthesized events. -/
theorem C7_attach_replay :
    ∀ (s : RelayState) (c0 conn id : Nat) (p : Option J)
      (oracle : Option String → String → Option J → Except String J),
      s.extensionWs = some c0 →
      (handleCDPMessage s conn oracle ⟨id, "Target.setAutoAttach", p, none⟩
        = RelayEff.sendConn conn (cdpReplyObj id none ("result", J.jobj []))
          :: setAutoAttachReplay s conn) ∧
      (setAutoAttachReplay s conn).length = s.connectedTargets.length ∧
      (∀ t ∈ s.connectedTargets,
        RelayEff.sendConn conn (J.jobj
          [("method", J.jstr "Target.attachedToTarget"),
           ("params", J.jobj
             [("sessionId", J.jstr t.sessionId),
              ("targetInfo", J.jobj (jSetKey t.targetInfo "attached" (J.jbool true))),
              ("waitingForDebugger", J.jbool false)])])
          ∈ setAutoAttachReplay s conn) ∧
      (∀ e ∈ handleCDPMessage s conn oracle ⟨id, "Target.setAutoAttach", p, none⟩,
        RelayEff.conn e = conn) ∧
      (∀ (m : String) (sid : Option String) (pp : Option J) (id2 : Nat) (rr : J),
        m ≠ "Target.setAutoAttach" →
        interpRouted oracle (routeCDPCommand s m pp sid) = .ok rr →
        handleCDPMessage s conn oracle ⟨id2, m, pp, sid⟩
          = [RelayEff.sendConn conn (cdpReplyObj id2 sid ("result", rr))]) := by
  intro s c0 conn id p oracle h
  have hmain : handleCDPMessage s conn oracle ⟨id, "Target.setAutoAttach", p, none⟩
      = RelayEff.sendConn conn (cdpReplyObj id none ("result", J.jobj []))
        :: setAutoAttachReplay s conn := by
    simp [handleCDPMessage, h, route_setAutoAttach, interpRouted]
  refine ⟨hmain, ?_, ?_, ?_, ?_⟩
  · simp [setAutoAttachReplay]
  · intro t ht
    exact List.mem_map_of_mem _ ht
  · intro e he
    rw [hmain] at he
    rcases List.mem_cons.mp he with rfl | hrep
    · rfl
    · obtain ⟨t, _, rfl⟩ := List.mem_map.mp hrep
      rfl
  · intro m sid pp id2 rr hm hint
    simp only [handleCDPMessage, h, hint]
    rw [if_neg (fun hcon => hm hcon.1)]

/-- Witness for C7: the demo relay with its two sessions; client socket 21
issues a sessionless `Target.setAutoAttach` and receives the ack plus
exactly 2 synthesized events, all on socket 21. -/
theorem C7_attach_replay_witness :
    (handleCDPMessage relayDemo 21 demoOracle ⟨5, "Target.setAutoAttach", none, none⟩
      = RelayEff.sendConn 21 (cdpReplyObj 5 none ("result", J.jobj []))
        :: setAutoAttachReplay relayDemo 21) ∧
    (setAutoAttachReplay relayDemo 21).length = 2 ∧
    (∀ e ∈ handleCDPMessage relayDemo 21 demoOracle
        ⟨5, "Target.setAutoAttach", none, none⟩, RelayEff.conn e = 21) := by
  have h := C7_attach_replay relayDemo 7 21 5 none demoOracle rfl
  refine ⟨h.1, ?_, h.2.2.2.1⟩
  rw [h.2.1]
  rfl

/-- C8: (a) a method outside the local subset is forwarded to the upstream
peer carrying the resolved session identifier; (b) each of the six local
methods is answered without forwarding; (c) an absent session identifier is
substituted with the first tracked session's; (d) a forwarded call's raw
result is returned unmodified. -/
theorem C8_command_routing :
    (∀ (s : RelayState) (m : String) (p : Option J) (sid : Option String),
      m ∉ localCDPMethods →
      routeCDPCommand s m p sid = .forward (resolveSessionId s sid) m p) ∧
    (∀ (s : RelayState) (m : String) (p : Option J) (sid : Option String),
      m ∈ localCDPMethods →
      (routeCDPCommand s m p sid).isForward = false) ∧
    (∀ (s : RelayState) (t : TargetEntry) (rest : List TargetEntry),
      s.connectedTargets = t :: rest →
      resolveSessionId s none = some t.sessionId) ∧
    (∀ (oracle : Option String → String → Option J → Except String J)
       (sid : Option String) (m : String) (p : Option J),
      interpRouted oracle (Routed.forward sid m p) = oracle sid m p) := by
  refine ⟨?_, ?_, ?_, ?_⟩
  · intro s m p sid hm
    simp only [localCDPMethods, List.mem_cons, List.not_mem_nil, or_false] at hm
    push_neg at hm
    obtain ⟨h1, h2, h3, h4, h5, h6⟩ := hm
    simp only [routeCDPCommand]
    rw [if_neg h1, if_neg (not_or.mpr ⟨h2, h3⟩), if_neg h4, if_neg h5, if_neg h6]
  · intro s m p sid hm
    simp only [localCDPMethods, List.mem_cons, List.not_mem_nil, or_false] at hm
    rcases hm with rfl | rfl | rfl | rfl | rfl | rfl
    · simp [routeCDPCommand, Routed.isForward]
    · simp [routeCDPCommand, Routed.isForward]
    · simp [routeCDPCommand, Routed.isForward]
    · simp [routeCDPCommand, Routed.isForward]
    · simp only [routeCDPCommand]
      rw [if_neg (by decide), if_neg (by decide), if_neg (by decide), if_pos trivial]
      split <;> rfl
    · simp only [routeCDPCommand]
      rw [if_neg (by decide), if_neg (by decide), if_neg (by decide),
        if_neg (by decide), if_pos trivial]
      split
      · rfl
      · split <;> rfl
  · intro s t rest h
    simp [resolveSessionId, h]
  · intro oracle sid m p
    rfl

/-- Witness for C8: on the demo relay, `Page.navigate` with no session id is
forwarded with session `s1` substituted; `Target.getTargets` is answered
locally; the upstream oracle's raw result comes back unmodified. -/
theorem C8_command_routing_witness :
    routeCDPCommand relayDemo "Page.navigate" none none
        = .forward (some "s1") "Page.navigate" none ∧
    (routeCDPCommand relayDemo "Target.getTargets" none none).isForward = false ∧
    resolveSessionId relayDemo none = some "s1" ∧
    interpRouted demoOracle (Routed.forward (some "s1") "Page.navigate" none)
        = .ok (J.jstr "raw-result") := by
  have h := C8_command_routing
  refine ⟨?_, h.2.1 relayDemo "Target.getTargets" none none (by decide), ?_, ?_⟩
  · rw [h.1 relayDemo "Page.navigate" none none (by decide)]
    rfl
  · exact h.2.2.1 relayDemo ⟨"s1", "t1", [("url", J.jstr "https://a.example")]⟩ _ rfl
  · rw [h.2.2.2 demoOracle (some "s1") "Page.navigate" none]
    rfl

/-! ## Task interpreter lemmas (claim C4) -/

theorem runStepsFrom_no_exit (env : RunEnv) (hdel : ∀ i, env.delegated i = true) :
    ∀ (steps : List RunStep) (i : Nat),
      (runStepsFrom env steps i).1
          = .finished ((runStepsFrom env steps i).2.stepFailures.any id) ∧
        (runStepsFrom env steps i).2.executed = List.range' i steps.length ∧
        (runStepsFrom env steps i).2.stepFailures.length = steps.length := by
  intro steps
  induction steps with
  | nil => intro i; simp [runStepsFrom, List.range']
  | cons st rest ih =>
    intro i
    obtain ⟨ih1, ih2, ih3⟩ := ih (i + 1)
    rcases hrec : runStepsFrom env rest (i + 1) with ⟨out, tr⟩
    rw [hrec] at ih1 ih2 ih3
    simp only at ih1 ih2 ih3
    cases st with
    | navigate u =>
      simp [runStepsFrom, hdel i, hrec, ih1, ih2, ih3, List.range']
    | wait n =>
      simp [runStepsFrom, hrec, ih1, ih2, ih3, List.range']
    | evalStep e =>
      simp [runStepsFrom, hdel i, hrec, ih1, ih2, ih3, List.range']
    | click sel =>
      simp [runStepsFrom, hdel i, hrec, ih1, ih2, ih3, List.range']
    | typeStep arg =>
      cases arg with
      | some a => simp [runStepsFrom, hdel i, hrec, ih1, ih2, ih3, List.range']
      | none => simp [runStepsFrom, hrec, ih1, ih2, ih3, List.range']
    | screenshot pp =>
      simp [runStepsFrom, hdel i, hrec, ih1, ih2, ih3, List.range']
    | textStep =>
      simp [runStepsFrom, hdel i, hrec, ih1, ih2, ih3, List.range']
    | logStep m =>
      simp [runStepsFrom, hrec, ih1, ih2, ih3, List.range']
    | unknown c =>
      simp [runStepsFrom, hrec, ih1, ih2, ih3, List.range']
    | assert e =>
      rcases ha : env.assertRes i with emsg | v
      · simp [runStepsFrom, ha, hrec, ih1, ih2, ih3, List.range']
      · cases v
        case jbool b =>
          cases b <;> simp [runStepsFrom, ha, hrec, ih1, ih2, ih3, List.range']
        all_goals simp [runStepsFrom, ha, hrec, ih1, ih2, ih3, List.range']

/-- Counterexample to C4 as stated: in the task `[click "#missing",
log "after"]`, the failing `click` step makes its delegated handler call
`process.exit(1)`, so the run ends inside step 0 — the `log` step never
executes, "after" is never emitted, and no failed-task summary is produced
(the claim asserts both steps execute and the task finishes marked
failed). -/
theorem C4_no_early_abort_counterexample :
    (cmdRunModel envClickFail [RunStep.click "#missing", RunStep.logStep "after"]).1
        = .exitedAt 0 ∧
    (cmdRunModel envClickFail [RunStep.click "#missing", RunStep.logStep "after"]).2.executed
        = [0] ∧
    "after" ∉ (cmdRunModel envClickFail [RunStep.click "#missing", RunStep.logStep "after"]).2.logs ∧
    (cmdRunModel envClickFail [RunStep.click "#missing", RunStep.logStep "after"]).1
        ≠ .finished true := by
  refine ⟨rfl, rfl, ?_, by decide⟩
  show "after" ∉ ([] : List String)
  simp

/-- C4 amended: an `assert` failure marks the task failed and execution
continues — `[assert "false", log "after"]` runs both steps, emits "after"
and finishes failed; but a delegated-handler failure (navigate, eval, click,
type, screenshot, text) terminates the process inside that step, aborting
the remaining steps; when no delegated handler fails, every step executes
and the task succeeds iff every step's failure flag is false. -/
theorem C4_interpreter_continuation :
    (cmdRunModel envAssertFalse [RunStep.assert "false", RunStep.logStep "after"]
      = (.finished true, ⟨[0, 1], ["after"], [true, false]⟩)) ∧
    (∀ (env : RunEnv) (sel : String) (rest : List RunStep),
      env.delegated 0 = false →
      cmdRunModel env (RunStep.click sel :: rest) = (.exitedAt 0, ⟨[0], [], []⟩)) ∧
    (∀ (env : RunEnv) (steps : List RunStep),
      (∀ i, env.delegated i = true) →
      (cmdRunModel env steps).1
          = .finished ((cmdRunModel env steps).2.stepFailures.any id) ∧
        (cmdRunModel env steps).2.executed = List.range' 0 steps.length ∧
        (cmdRunModel env steps).2.stepFailures.length = steps.length ∧
        ((cmdRunModel env steps).1 = .finished false ↔
          ∀ b ∈ (cmdRunModel env steps).2.stepFailures, b = false)) := by
  refine ⟨rfl, ?_, ?_⟩
  · intro env sel rest h0
    simp [cmdRunModel, runStepsFrom, h0]
  · intro env steps hdel
    obtain ⟨h1, h2, h3⟩ := runStepsFrom_no_exit env hdel steps 0
    rw [show runStepsFrom env steps 0 = cmdRunModel env steps from rfl] at h1 h2 h3
    refine ⟨h1, h2, h3, ?_⟩
    rw [h1]
    constructor
    · intro hf
      have : (cmdRunModel env steps).2.stepFailures.any id = false := by
        injection hf
      intro b hb
      have := List.any_eq_false.mp this b hb
      simpa using this
    · intro hall
      have : (cmdRunModel env steps).2.stepFailures.any id = false := by
        apply List.any_eq_false.mpr
        intro b hb
        simpa using hall b hb
      rw [this]

/-- Witness for C4: the assert example runs both steps and fails; a failing
click aborts at step 0; an all-benign task finishes with `failed = false`. -/
theorem C4_interpreter_continuation_witness :
    cmdRunModel envAssertFalse [RunStep.assert "false", RunStep.logStep "after"]
      = (.finished true, ⟨[0, 1], ["after"], [true, false]⟩) ∧
    cmdRunModel envClickFail [RunStep.click "#x", RunStep.logStep "later"]
      = (.exitedAt 0, ⟨[0], [], []⟩) ∧
    (cmdRunModel envAssertFalse [RunStep.logStep "a", RunStep.wait 1]).1
      = .finished false := by
  have h := C4_interpreter_continuation
  refine ⟨h.1, h.2.1 envClickFail "#x" _ rfl, ?_⟩
  have h3 := h.2.2 envAssertFalse [RunStep.logStep "a", RunStep.wait 1] (fun _ => rfl)
  rw [h3.1]
  rfl

/-! ## Loop-controller lemmas (claims C1, C5, C6, C9, C10) -/

theorem runLoopSteps_effects (env : LoopEnv) (k : Nat) :
    ∀ (steps : List LoopStep) (i : Nat) (l : J),
      ∀ e ∈ (runLoopSteps env k steps i l).1,
        ∃ j st, e = LoopEff.execStep k j st := by
  intro steps
  induction steps with
  | nil => intro i l e he; simp [runLoopSteps] at he
  | cons st rest ih =>
    intro i l e he
    cases st with
    | goto u =>
      rcases hr : env.stepRes k i with v | m | _
      · rcases hrec : runLoopSteps env k rest (i + 1) l with ⟨effs2, r2⟩
        simp only [runLoopSteps, hr, hrec] at he
        rcases List.mem_cons.mp he with rfl | hrest
        · exact ⟨i, _, rfl⟩
        · exact ih (i + 1) l e (by rw [hrec]; exact hrest)
      · simp only [runLoopSteps, hr] at he
        rcases List.mem_cons.mp he with rfl | h0
        · exact ⟨i, _, rfl⟩
        · simp at h0
      · simp only [runLoopSteps, hr] at he
        rcases List.mem_cons.mp he with rfl | h0
        · exact ⟨i, _, rfl⟩
        · simp at h0
    | click sel =>
      rcases hr : env.stepRes k i with v | m | _
      · rcases hrec : runLoopSteps env k rest (i + 1) l with ⟨effs2, r2⟩
        simp only [runLoopSteps, hr, hrec] at he
        rcases List.mem_cons.mp he with rfl | hrest
        · exact ⟨i, _, rfl⟩
        · exact ih (i + 1) l e (by rw [hrec]; exact hrest)
      · simp only [runLoopSteps, hr] at he
        rcases List.mem_cons.mp he with rfl | h0
        · exact ⟨i, _, rfl⟩
        · simp at h0
      · simp only [runLoopSteps, hr] at he
        rcases List.mem_cons.mp he with rfl | h0
        · exact ⟨i, _, rfl⟩
        · simp at h0
    | screenshot pp =>
      rcases hr : env.stepRes k i with v | m | _
      · rcases hrec : runLoopSteps env k rest (i + 1) l with ⟨effs2, r2⟩
        simp only [runLoopSteps, hr, hrec] at he
        rcases List.mem_cons.mp he with rfl | hrest
        · exact ⟨i, _, rfl⟩
        · exact ih (i + 1) l e (by rw [hrec]; exact hrest)
      · simp only [runLoopSteps, hr] at he
        rcases List.mem_cons.mp he with rfl | h0
        · exact ⟨i, _, rfl⟩
        · simp at h0
      · simp only [runLoopSteps, hr] at he
        rcases List.mem_cons.mp he with rfl | h0
        · exact ⟨i, _, rfl⟩
        · simp at h0
    | eval expr =>
      rcases hr : env.stepRes k i with v | m | _
      · rcases hrec : runLoopSteps env k rest (i + 1) v with ⟨effs2, r2⟩
        simp only [runLoopSteps, hr, hrec] at he
        rcases List.mem_cons.mp he with rfl | hrest
        · exact ⟨i, _, rfl⟩
        · exact ih (i + 1) v e (by rw [hrec]; exact hrest)
      · simp only [runLoopSteps, hr] at he
        rcases List.mem_cons.mp he with rfl | h0
        · exact ⟨i, _, rfl⟩
        · simp at h0
      · simp only [runLoopSteps, hr] at he
        rcases List.mem_cons.mp he with rfl | h0
        · exact ⟨i, _, rfl⟩
        · simp at h0
    | wait n =>
      rcases hrec : runLoopSteps env k rest (i + 1) l with ⟨effs2, r2⟩
      simp only [runLoopSteps, hrec] at he
      rcases List.mem_cons.mp he with rfl | hrest
      · exact ⟨i, _, rfl⟩
      · exact ih (i + 1) l e (by rw [hrec]; exact hrest)
    | unknown c =>
      rcases hrec : runLoopSteps env k rest (i + 1) l with ⟨effs2, r2⟩
      simp only [runLoopSteps, hrec] at he
      rcases List.mem_cons.mp he with rfl | hrest
      · exact ⟨i, _, rfl⟩
      · exact ih (i + 1) l e (by rw [hrec]; exact hrest)

theorem backoffSecs_nil_of_exec (k : Nat) (effs : List LoopEff)
    (h : ∀ e ∈ effs, ∃ j st, e = LoopEff.execStep k j st) :
    backoffSecs effs = [] := by
  induction effs with
  | nil => rfl
  | cons e rest ih =>
    obtain ⟨j, st, rfl⟩ := h e (List.mem_cons_self _ _)
    have := ih (fun x hx => h x (List.mem_cons_of_mem _ hx))
    simpa [backoffSecs, List.filterMap_cons] using this

theorem passIters_const_of_exec (k : Nat) (effs : List LoopEff)
    (h : ∀ e ∈ effs, ∃ j st, e = LoopEff.execStep k j st) :
    ∀ x ∈ passIters effs, x = k := by
  induction effs with
  | nil => intro x hx; simp [passIters] at hx
  | cons e rest ih =>
    intro x hx
    obtain ⟨j, st, rfl⟩ := h e (List.mem_cons_self _ _)
    simp only [passIters, List.filterMap_cons] at hx
    rcases List.mem_cons.mp hx with rfl | hrest
    · rfl
    · exact ih (fun y hy => h y (List.mem_cons_of_mem _ hy)) x hrest

theorem loopIteration_running_step (cfg : LoopCfg) (env : LoopEnv)
    (s s' : LoopState) (effs : List LoopEff)
    (heq : loopIteration cfg env s = .normal s' effs)
    (hrun : s'.status = "running") :
    s'.iteration = s.iteration + 1 ∧
    s'.completedRecs.length + s'.errors.length
      = s.completedRecs.length + s.errors.length + 1 := by
  simp only [loopIteration] at heq
  by_cases h1 : s.iteration + 1 > cfg.maxIterations
  · rw [if_pos h1] at heq
    cases heq
    simp at hrun
  · rw [if_neg h1] at heq
    by_cases h2 : env.elapsed (s.iteration + 1) > cfg.maxRuntime
    · rw [if_pos h2] at heq
      cases heq
      simp at hrun
    · rw [if_neg h2] at heq
      rcases hpass : runLoopSteps env (s.iteration + 1) cfg.steps 0 s.lastOutput
        with ⟨effs0, pr⟩
      cases pr with
      | passExited =>
        simp only [hpass] at heq
        cases heq
      | passOk lout =>
        simp only [hpass] at heq
        by_cases h3 : outputHasMarker lout cfg.marker = true
        · rw [if_pos h3] at heq
          cases heq
          simp at hrun
        · rw [if_neg h3] at heq
          by_cases h4 : fileHasMarker (env.fileContent (s.iteration + 1)) cfg.marker = true
          · rw [if_pos h4] at heq
            cases heq
            simp at hrun
          · rw [if_neg h4] at heq
            cases heq
            refine ⟨rfl, ?_⟩
            simp
            omega
      | passThrew m lout =>
        simp only [hpass] at heq
        cases heq
        refine ⟨rfl, ?_⟩
        simp
        omega

theorem loopIteration_max_break (cfg : LoopCfg) (env : LoopEnv) (s : LoopState)
    (h : cfg.maxIterations < s.iteration + 1) :
    loopIteration cfg env s
      = .normal { s with iteration := s.iteration + 1, status := "max_iterations" } [] := by
  simp only [loopIteration]
  rw [if_pos h]

theorem loop_no_complete_runs_to_max (cfg : LoopCfg) (env : LoopEnv)
    (H : ∀ s : LoopState, s.status = "running" →
      s.iteration + 1 ≤ cfg.maxIterations →
      ∃ s' effs, loopIteration cfg env s = .normal s' effs ∧ s'.status = "running") :
    ∀ (fuel : Nat) (s : LoopState) (acc : List LoopEff),
      s.status = "running" → s.iteration ≤ cfg.maxIterations →
      cfg.maxIterations + 2 ≤ s.iteration + fuel →
      ∃ final effs,
        runLoopAux cfg env fuel s acc = .done final effs ∧
        final.status = "max_iterations" ∧
        final.iteration = cfg.maxIterations + 1 ∧
        final.completedRecs.length + final.errors.length
          = s.completedRecs.length + s.errors.length
            + (cfg.maxIterations - s.iteration) := by
  intro fuel
  induction fuel with
  | zero => intro s acc _ hit hfuel; omega
  | succ f ih =>
    intro s acc hs hit hfuel
    by_cases hmax : s.iteration = cfg.maxIterations
    · have hbreak := loopIteration_max_break cfg env s (by omega)
      simp only [runLoopAux]
      rw [if_pos hs, hbreak]
      cases f with
      | zero => omega
      | succ f2 =>
        simp only [runLoopAux]
        rw [if_neg (by simp)]
        refine ⟨_, _, rfl, rfl, ?_, ?_⟩
        · simp [hmax]
        · simp [hmax]
    · obtain ⟨s', effs1, heq, hrun⟩ := H s hs (by omega)
      obtain ⟨hiter, hcount⟩ := loopIteration_running_step cfg env s s' effs1 heq hrun
      simp only [runLoopAux]
      rw [if_pos hs, heq]
      obtain ⟨final, effs2, hfin, hst, hfi, hfc⟩ :=
        ih s' (acc ++ effs1) hrun (by omega) (by omega)
      exact ⟨final, effs2, hfin, hst, hfi, by omega⟩

/-- Counterexample to C1 as stated: with `maxIterations = 3` and a task
whose eval step always returns `"working"` (never the marker), the loop
does perform exactly 3 passes (iterations 1, 2, 3) and stops with
`max_iterations` — but the persisted state's iteration counter at
termination is 4, not 3, because `state.iteration++` runs before the bound
check. -/
theorem C1_loop_bounds_counterexample :
    (loopRunFinal (cmdLoopRun cfgC1 envC1 10)).map LoopState.iteration = some 4 ∧
    (loopRunFinal (cmdLoopRun cfgC1 envC1 10)).map LoopState.status
        = some "max_iterations" ∧
    passIters (loopRunEffs (cmdLoopRun cfgC1 envC1 10)) = [1, 2, 3] ∧
    (loopRunFinal (cmdLoopRun cfgC1 envC1 10)).map LoopState.completedRecs
        = some [1, 2, 3] ∧
    (loopRunFinal (cmdLoopRun cfgC1 envC1 10)).map LoopState.iteration ≠ some 3 := by
  refine ⟨rfl, rfl, rfl, rfl, ?_⟩
  intro h
  rw [show (loopRunFinal (cmdLoopRun cfgC1 envC1 10)).map LoopState.iteration
      = some 4 from rfl] at h
  exact absurd h (by decide)

/-- C1 amended: with `maxIterations = 3` and a task that never signals
completion (every in-bound iteration leaves the loop running), the loop
performs exactly 3 iterations (3 per-iteration outcome records), terminates
with status `max_iterations`, and both bounds are evaluated before running
the iteration (the out-of-bound iteration executes no steps); the persisted
state's iteration counter at termination equals 4 = maxIterations + 1 (one
past the bound), not 3. -/
theorem C1_loop_bounds_amended :
    ∀ (cfg : LoopCfg) (env : LoopEnv),
      cfg.maxIterations = 3 →
      (∀ s : LoopState, s.status = "running" →
        s.iteration + 1 ≤ cfg.maxIterations →
        ∃ s' effs, loopIteration cfg env s = .normal s' effs ∧ s'.status = "running") →
      (∃ final effs, cmdLoopRun cfg env 5 = .done final effs ∧
        final.status = "max_iterations" ∧
        final.iteration = 4 ∧
        final.completedRecs.length + final.errors.length = 3) ∧
      (∀ s : LoopState, cfg.maxIterations < s.iteration + 1 →
        loopIteration cfg env s
          = .normal { s with iteration := s.iteration + 1,
                             status := "max_iterations" } []) := by
  intro cfg env hmax H
  constructor
  · obtain ⟨final, effs, h1, h2, h3, h4⟩ :=
      loop_no_complete_runs_to_max cfg env H 5 loopInit [] rfl
        (by have hz : loopInit.iteration = 0 := rfl; omega)
        (by have hz : loopInit.iteration = 0 := rfl; omega)
    refine ⟨final, effs, h1, h2, by omega, ?_⟩
    have hz : loopInit.iteration = 0 := rfl
    have hc : loopInit.completedRecs.length = 0 := rfl
    have he : loopInit.errors.length = 0 := rfl
    omega
  · intro s h
    exact loopIteration_max_break cfg env s h

theorem cfgC1_never_completes :
    ∀ s : LoopState, s.status = "running" →
      s.iteration + 1 ≤ cfgC1.maxIterations →
      ∃ s' effs, loopIteration cfgC1 envC1 s = .normal s' effs ∧
        s'.status = "running" := by
  intro s hs hit
  have hpass : runLoopSteps envC1 (s.iteration + 1) cfgC1.steps 0 s.lastOutput
      = ([LoopEff.execStep (s.iteration + 1) 0 (LoopStep.eval "0")],
         PassResult.passOk (J.jstr "working")) := rfl
  have hiter : loopIteration cfgC1 envC1 s = .normal
      { iteration := s.iteration + 1,
        completedRecs := s.completedRecs ++ [s.iteration + 1],
        status := s.status, lastOutput := J.jstr "working", errors := s.errors }
      ([LoopEff.execStep (s.iteration + 1) 0 (LoopStep.eval "0")]
        ++ checkpointEff cfgC1
          { iteration := s.iteration + 1,
            completedRecs := s.completedRecs ++ [s.iteration + 1],
            status := s.status, lastOutput := J.jstr "working",
            errors := s.errors }) := by
    simp only [loopIteration]
    rw [if_neg (by omega), if_neg (by simp [envC1, cfgC1])]
    simp only [hpass]
    rw [if_neg (by decide), if_neg (by simp [envC1, fileHasMarker])]
  exact ⟨_, _, hiter, hs⟩

/-- Witness for C1 (amended): the concrete `maxIterations = 3` run ends with
status `max_iterations` and counter 4, and the out-of-bound fourth iteration
breaks without executing steps. -/
theorem C1_loop_bounds_amended_witness :
    (loopRunFinal (cmdLoopRun cfgC1 envC1 5)).map LoopState.status
        = some "max_iterations" ∧
    (loopRunFinal (cmdLoopRun cfgC1 envC1 5)).map LoopState.iteration = some 4 ∧
    loopIteration cfgC1 envC1
        { iteration := 3, completedRecs := [1, 2, 3], status := "running",
          lastOutput := J.jstr "working", errors := [] }
      = .normal
          { iteration := 4, completedRecs := [1, 2, 3],
            status := "max_iterations", lastOutput := J.jstr "working",
            errors := [] } [] := by
  obtain ⟨⟨final, effs, h1, h2, h3, _⟩, hb⟩ :=
    C1_loop_bounds_amended cfgC1 envC1 rfl cfgC1_never_completes
  refine ⟨?_, ?_, ?_⟩
  · rw [h1]
    simp [loopRunFinal, h2]
  · rw [h1]
    simp [loopRunFinal, h3]
  · exact hb _ (by decide)

theorem loopIteration_output_marker (cfg : LoopCfg) (env : LoopEnv)
    (s : LoopState) (e : List LoopEff) (lout : J)
    (hit : s.iteration + 1 ≤ cfg.maxIterations)
    (ht : env.elapsed (s.iteration + 1) ≤ cfg.maxRuntime)
    (hpass : runLoopSteps env (s.iteration + 1) cfg.steps 0 s.lastOutput
      = (e, .passOk lout))
    (hm : outputHasMarker lout cfg.marker = true) :
    loopIteration cfg env s = .normal
      { s with iteration := s.iteration + 1, lastOutput := lout,
               status := "completed" } e := by
  simp only [loopIteration]
  rw [if_neg (by omega), if_neg (by omega)]
  simp only [hpass]
  rw [if_pos hm]

theorem loopIteration_file_marker (cfg : LoopCfg) (env : LoopEnv)
    (s : LoopState) (e : List LoopEff) (lout : J)
    (hit : s.iteration + 1 ≤ cfg.maxIterations)
    (ht : env.elapsed (s.iteration + 1) ≤ cfg.maxRuntime)
    (hpass : runLoopSteps env (s.iteration + 1) cfg.steps 0 s.lastOutput
      = (e, .passOk lout))
    (hm : outputHasMarker lout cfg.marker = false)
    (hf : fileHasMarker (env.fileContent (s.iteration + 1)) cfg.marker = true) :
    loopIteration cfg env s = .normal
      { s with iteration := s.iteration + 1, lastOutput := lout,
               status := "completed" } e := by
  simp only [loopIteration]
  rw [if_neg (by omega), if_neg (by omega)]
  simp only [hpass]
  rw [if_neg (by simp [hm]), if_pos hf]

theorem loopIteration_throw (cfg : LoopCfg) (env : LoopEnv)
    (s : LoopState) (e : List LoopEff) (m : String) (lout : J)
    (hit : s.iteration + 1 ≤ cfg.maxIterations)
    (ht : env.elapsed (s.iteration + 1) ≤ cfg.maxRuntime)
    (hpass : runLoopSteps env (s.iteration + 1) cfg.steps 0 s.lastOutput
      = (e, .passThrew m lout)) :
    loopIteration cfg env s = .normal
      { s with iteration := s.iteration + 1, lastOutput := lout,
               errors := s.errors ++ [(s.iteration + 1, m)] }
      (e ++ [LoopEff.backoff (min 30 (2 ^ (s.errors.length + 1)))]
        ++ checkpointEff cfg
            { s with iteration := s.iteration + 1, lastOutput := lout,
                     errors := s.errors ++ [(s.iteration + 1, m)] }) := by
  simp only [loopIteration]
  rw [if_neg (by omega), if_neg (by omega)]
  simp only [hpass]
  simp

theorem execEffs_append (a b : List LoopEff) :
    execEffs (a ++ b) = execEffs a ++ execEffs b := by
  simp [execEffs]

theorem execEffs_checkpoint (cfg : LoopCfg) (s : LoopState) :
    execEffs (checkpointEff cfg s) = [] := by
  unfold checkpointEff
  split <;> simp [execEffs]

theorem backoffSecs_append (a b : List LoopEff) :
    backoffSecs (a ++ b) = backoffSecs a ++ backoffSecs b := by
  simp [backoffSecs]

theorem backoffSecs_checkpoint (cfg : LoopCfg) (s : LoopState) :
    backoffSecs (checkpointEff cfg s) = [] := by
  unfold checkpointEff
  split <;> simp [backoffSecs]

theorem passIters_append (a b : List LoopEff) :
    passIters (a ++ b) = passIters a ++ passIters b := by
  simp [passIters]

theorem loopIteration_timeout_break (cfg : LoopCfg) (env : LoopEnv)
    (s : LoopState) (h1 : ¬ s.iteration + 1 > cfg.maxIterations)
    (h2 : env.elapsed (s.iteration + 1) > cfg.maxRuntime) :
    loopIteration cfg env s
      = .normal { s with iteration := s.iteration + 1, status := "timeout" } [] := by
  simp only [loopIteration]
  rw [if_neg h1, if_pos h2]

theorem loopIteration_success (cfg : LoopCfg) (env : LoopEnv)
    (s : LoopState) (e : List LoopEff) (lout : J)
    (hit : s.iteration + 1 ≤ cfg.maxIterations)
    (ht : env.elapsed (s.iteration + 1) ≤ cfg.maxRuntime)
    (hpass : runLoopSteps env (s.iteration + 1) cfg.steps 0 s.lastOutput
      = (e, .passOk lout))
    (hm : outputHasMarker lout cfg.marker = false)
    (hf : fileHasMarker (env.fileContent (s.iteration + 1)) cfg.marker = false) :
    loopIteration cfg env s = .normal
      { s with iteration := s.iteration + 1, lastOutput := lout,
               completedRecs := s.completedRecs ++ [s.iteration + 1] }
      (e ++ checkpointEff cfg
          { s with iteration := s.iteration + 1, lastOutput := lout,
                   completedRecs := s.completedRecs ++ [s.iteration + 1] }) := by
  simp only [loopIteration]
  rw [if_neg (by omega), if_neg (by omega)]
  simp only [hpass]
  rw [if_neg (by simp [hm]), if_neg (by simp [hf])]

theorem loopIteration_exited (cfg : LoopCfg) (env : LoopEnv)
    (s : LoopState) (e : List LoopEff)
    (h1 : ¬ s.iteration + 1 > cfg.maxIterations)
    (h2 : ¬ env.elapsed (s.iteration + 1) > cfg.maxRuntime)
    (hpass : runLoopSteps env (s.iteration + 1) cfg.steps 0 s.lastOutput
      = (e, .passExited)) :
    loopIteration cfg env s = .exitedProc e := by
  simp only [loopIteration]
  rw [if_neg h1, if_neg h2]
  simp only [hpass]

theorem passIters_checkpoint (cfg : LoopCfg) (s : LoopState) :
    passIters (checkpointEff cfg s) = [] := by
  unfold checkpointEff
  split <;> simp [passIters]

/-- Every pass-step effect of one loop-body execution belongs to that body's
iteration number, and every backoff sleep it emits is capped at 30
seconds. -/
theorem loopIteration_effects (cfg : LoopCfg) (env : LoopEnv) (s : LoopState) :
    (∀ x ∈ passIters (iterEffs (loopIteration cfg env s)), x = s.iteration + 1) ∧
    (∀ b ∈ backoffSecs (iterEffs (loopIteration cfg env s)), b ≤ 30) := by
  by_cases h1 : s.iteration + 1 > cfg.maxIterations
  · rw [loopIteration_max_break cfg env s h1]
    constructor <;> intro x hx <;> simp [iterEffs, passIters, backoffSecs] at hx
  · by_cases h2 : env.elapsed (s.iteration + 1) > cfg.maxRuntime
    · rw [loopIteration_timeout_break cfg env s h1 h2]
      constructor <;> intro x hx <;> simp [iterEffs, passIters, backoffSecs] at hx
    · rcases hpass : runLoopSteps env (s.iteration + 1) cfg.steps 0 s.lastOutput
        with ⟨e0, pr⟩
      have hexec := runLoopSteps_effects env (s.iteration + 1) cfg.steps 0 s.lastOutput
      rw [hpass] at hexec
      simp only at hexec
      cases pr with
      | passExited =>
        rw [loopIteration_exited cfg env s e0 h1 h2 hpass]
        constructor
        · exact fun x hx => passIters_const_of_exec _ _ hexec x hx
        · intro b hb
          simp only [iterEffs] at hb
          rw [backoffSecs_nil_of_exec _ _ hexec] at hb
          simp at hb
      | passOk lout =>
        by_cases h3 : outputHasMarker lout cfg.marker = true
        · rw [loopIteration_output_marker cfg env s e0 lout (by omega) (by omega)
            hpass h3]
          constructor
          · exact fun x hx => passIters_const_of_exec _ _ hexec x hx
          · intro b hb
            simp only [iterEffs] at hb
            rw [backoffSecs_nil_of_exec _ _ hexec] at hb
            simp at hb
        · have h3f : outputHasMarker lout cfg.marker = false := by
            simpa using h3
          by_cases h4 : fileHasMarker (env.fileContent (s.iteration + 1)) cfg.marker = true
          · rw [loopIteration_file_marker cfg env s e0 lout (by omega) (by omega)
              hpass h3f h4]
            constructor
            · exact fun x hx => passIters_const_of_exec _ _ hexec x hx
            · intro b hb
              simp only [iterEffs] at hb
              rw [backoffSecs_nil_of_exec _ _ hexec] at hb
              simp at hb
          · have h4f : fileHasMarker (env.fileContent (s.iteration + 1)) cfg.marker
                = false := by simpa using h4
            rw [loopIteration_success cfg env s e0 lout (by omega) (by omega)
              hpass h3f h4f]
            constructor
            · intro x hx
              simp only [iterEffs, passIters_append, passIters_checkpoint,
                List.append_nil] at hx
              exact passIters_const_of_exec _ _ hexec x hx
            · intro b hb
              simp only [iterEffs, backoffSecs_append, backoffSecs_checkpoint,
                List.append_nil, backoffSecs_nil_of_exec _ _ hexec] at hb
              simp at hb
      | passThrew m lout =>
        rw [loopIteration_throw cfg env s e0 m lout (by omega) (by omega) hpass]
        constructor
        · intro x hx
          simp only [iterEffs, passIters_append, passIters_checkpoint,
            List.append_nil] at hx
          rw [show passIters [LoopEff.backoff (min 30 (2 ^ (s.errors.length + 1)))]
              = [] from rfl] at hx
          simp only [List.append_nil] at hx
          exact passIters_const_of_exec _ _ hexec x hx
        · intro b hb
          simp only [iterEffs, backoffSecs_append, backoffSecs_checkpoint,
            List.append_nil, backoffSecs_nil_of_exec _ _ hexec] at hb
          rw [show backoffSecs [LoopEff.backoff (min 30 (2 ^ (s.errors.length + 1)))]
              = [min 30 (2 ^ (s.errors.length + 1))] from rfl] at hb
          simp only [List.nil_append] at hb
          rcases List.mem_singleton.mp hb with rfl
          exact Nat.min_le_left _ _

theorem runLoopAux_step_normal (cfg : LoopCfg) (env : LoopEnv) (f : Nat)
    (s : LoopState) (acc : List LoopEff) (s' : LoopState) (effs : List LoopEff)
    (hs : s.status = "running") (h : loopIteration cfg env s = .normal s' effs) :
    runLoopAux cfg env (f + 1) s acc = runLoopAux cfg env f s' (acc ++ effs) := by
  simp only [runLoopAux]
  rw [if_pos hs, h]

theorem runLoopAux_done (cfg : LoopCfg) (env : LoopEnv) (f : Nat)
    (s : LoopState) (acc : List LoopEff) (hs : ¬ s.status = "running") :
    runLoopAux cfg env (f + 1) s acc = .done s (acc ++ [LoopEff.finalSave s]) := by
  simp only [runLoopAux]
  rw [if_neg hs]

/-- C9: when the pass of an in-bound iteration throws, the error is appended
to the error list and a backoff sleep of `min(30, 2^k)` seconds is emitted,
where `k` is the new error count; every backoff the loop ever sleeps is at
most 30 seconds; and three consecutive iteration errors from an error-free
start produce the sleep sequence 2s, 4s, 8s. -/
theorem C9_error_backoff :
    (∀ (cfg : LoopCfg) (env : LoopEnv) (s : LoopState) (e : List LoopEff)
       (m : String) (lout : J),
      s.iteration + 1 ≤ cfg.maxIterations →
      env.elapsed (s.iteration + 1) ≤ cfg.maxRuntime →
      runLoopSteps env (s.iteration + 1) cfg.steps 0 s.lastOutput
        = (e, .passThrew m lout) →
      ∃ s', loopIteration cfg env s = .normal s'
          (e ++ [LoopEff.backoff (min 30 (2 ^ (s.errors.length + 1)))]
            ++ checkpointEff cfg s') ∧
        s'.errors = s.errors ++ [(s.iteration + 1, m)] ∧
        s'.iteration = s.iteration + 1) ∧
    (∀ (cfg : LoopCfg) (env : LoopEnv) (s : LoopState),
      ∀ b ∈ backoffSecs (iterEffs (loopIteration cfg env s)), b ≤ 30) ∧
    backoffSecs (loopRunEffs (cmdLoopRun cfgC1 envC9 10)) = [2, 4, 8] := by
  refine ⟨?_, ?_, ?_⟩
  · intro cfg env s e m lout hit ht hpass
    exact ⟨_, loopIteration_throw cfg env s e m lout hit ht hpass, rfl, rfl⟩
  · intro cfg env s
    exact (loopIteration_effects cfg env s).2
  · rfl

/-- Witness for C9: the always-throwing environment sleeps 2s, 4s, 8s over
its three iterations, and its first iteration emits exactly the 2-second
backoff. -/
theorem C9_error_backoff_witness :
    backoffSecs (loopRunEffs (cmdLoopRun cfgC1 envC9 10)) = [2, 4, 8] ∧
    backoffSecs (iterEffs (loopIteration cfgC1 envC9 loopInit)) = [2] := by
  obtain ⟨s', heq, herr, hiter⟩ := C9_error_backoff.1 cfgC1 envC9 loopInit
    [LoopEff.execStep 1 0 (LoopStep.eval "0")] "boom" J.null
    (by decide) (by decide) rfl
  refine ⟨C9_error_backoff.2.2, ?_⟩
  rw [heq]
  simp only [iterEffs, backoffSecs_append, backoffSecs_checkpoint, List.append_nil]
  rfl

/-- C6: (a) if iteration 1 leaves the loop running and iteration 2's pass
completes with an output whose stringification contains the marker, the loop
ends at iteration 2 with status `completed` and no effect of a third
iteration exists; (b) if the pass's output lacks the marker but the
re-read task source now contains the marker (or `DONE`), the iteration
transitions to `completed` as well. -/
theorem C6_completion_detection :
    (∀ (cfg : LoopCfg) (env : LoopEnv) (s1 : LoopState) (e1 e2 : List LoopEff)
       (lout : J) (f : Nat),
      2 ≤ cfg.maxIterations →
      env.elapsed 2 ≤ cfg.maxRuntime →
      loopIteration cfg env loopInit = .normal s1 e1 →
      s1.status = "running" →
      runLoopSteps env 2 cfg.steps 0 s1.lastOutput = (e2, .passOk lout) →
      outputHasMarker lout cfg.marker = true →
      ∃ final effs, cmdLoopRun cfg env (f + 3) = .done final effs ∧
        final.status = "completed" ∧ final.iteration = 2 ∧
        (∀ x ∈ passIters effs, x ≤ 2)) ∧
    (∀ (cfg : LoopCfg) (env : LoopEnv) (s : LoopState) (e : List LoopEff)
       (lout : J),
      s.iteration + 1 ≤ cfg.maxIterations →
      env.elapsed (s.iteration + 1) ≤ cfg.maxRuntime →
      runLoopSteps env (s.iteration + 1) cfg.steps 0 s.lastOutput
        = (e, .passOk lout) →
      outputHasMarker lout cfg.marker = false →
      fileHasMarker (env.fileContent (s.iteration + 1)) cfg.marker = true →
      loopIteration cfg env s = .normal
        { s with iteration := s.iteration + 1, lastOutput := lout,
                 status := "completed" } e) := by
  constructor
  · intro cfg env s1 e1 e2 lout f hmax ht h1 hs1 hpass hm
    have hiter0 := (loopIteration_running_step cfg env loopInit s1 e1 h1 hs1).1
    have hiter1 : s1.iteration = 1 := by
      rw [hiter0]
      rfl
    have hpass2 : runLoopSteps env (s1.iteration + 1) cfg.steps 0 s1.lastOutput
        = (e2, .passOk lout) := by
      rw [hiter1]
      exact hpass
    have hcomp : loopIteration cfg env s1 = .normal
        { s1 with iteration := s1.iteration + 1, lastOutput := lout,
                  status := "completed" } e2 :=
      loopIteration_output_marker cfg env s1 e2 lout (by omega) (by rw [hiter1]; exact ht)
        hpass2 hm
    have hstep1 : cmdLoopRun cfg env (f + 3)
        = runLoopAux cfg env (f + 2) s1 ([] ++ e1) :=
      runLoopAux_step_normal cfg env (f + 2) loopInit [] s1 e1 rfl h1
    have hstep2 : runLoopAux cfg env (f + 2) s1 ([] ++ e1)
        = runLoopAux cfg env (f + 1)
            { s1 with iteration := s1.iteration + 1, lastOutput := lout,
                      status := "completed" } (([] ++ e1) ++ e2) :=
      runLoopAux_step_normal cfg env (f + 1) s1 ([] ++ e1) _ e2 hs1 hcomp
    have hstep3 : runLoopAux cfg env (f + 1)
        { s1 with iteration := s1.iteration + 1, lastOutput := lout,
                  status := "completed" } (([] ++ e1) ++ e2)
        = .done
            { s1 with iteration := s1.iteration + 1, lastOutput := lout,
                      status := "completed" }
            ((([] ++ e1) ++ e2) ++ [LoopEff.finalSave
              { s1 with iteration := s1.iteration + 1, lastOutput := lout,
                        status := "completed" }]) :=
      runLoopAux_done cfg env f _ _ (by simp)
    refine ⟨_, _, hstep1.trans (hstep2.trans hstep3), rfl, by simp [hiter1], ?_⟩
    intro x hx
    simp only [List.nil_append, passIters_append] at hx
    rcases List.mem_append.mp hx with hx | hx
    · rcases List.mem_append.mp hx with hx | hx
      · have he1 := (loopIteration_effects cfg env loopInit).1
        rw [h1] at he1
        simp only [iterEffs] at he1
        have := he1 x hx
        omega
      · have hexec := runLoopSteps_effects env 2 cfg.steps 0 s1.lastOutput
        rw [hpass] at hexec
        simp only at hexec
        have := passIters_const_of_exec _ _ hexec x hx
        omega
    · rw [show passIters [LoopEff.finalSave
          { s1 with iteration := s1.iteration + 1, lastOutput := lout,
                    status := "completed" }] = [] from rfl] at hx
      simp at hx
  · intro cfg env s e lout hit ht hpass hm hf
    exact loopIteration_file_marker cfg env s e lout hit ht hpass hm hf

/-- Witness for C6: in the concrete run whose eval returns the marker string
on iteration 2, the loop finishes `completed` at iteration 2. -/
theorem C6_completion_detection_witness :
    (loopRunFinal (cmdLoopRun cfgC6 envC6 (17 + 3))).map LoopState.status
        = some "completed" ∧
    (loopRunFinal (cmdLoopRun cfgC6 envC6 (17 + 3))).map LoopState.iteration
        = some 2 := by
  obtain ⟨final, effs, h1, h2, h3, _⟩ := C6_completion_detection.1 cfgC6 envC6
    { iteration := 1, completedRecs := [1], status := "running",
      lastOutput := J.jstr "working", errors := [] }
    [LoopEff.execStep 1 0 (LoopStep.eval "0")]
    [LoopEff.execStep 2 0 (LoopStep.eval "0")]
    (J.jstr "xx LOOP_COMPLETE yy") 17
    (by decide) (by decide) rfl rfl rfl (by decide)
  rw [h1]
  simp [loopRunFinal, h2, h3]

theorem runLoopSteps_no_eval (env : LoopEnv) (k : Nat) :
    ∀ (steps : List LoopStep) (i : Nat) (l : J),
      (∀ st ∈ steps, st.isEval = false) →
      (runLoopSteps env k steps i l).2 = .passOk l ∨
      (runLoopSteps env k steps i l).2 = .passExited := by
  intro steps
  induction steps with
  | nil => intro i l _; left; rfl
  | cons st rest ih =>
    intro i l h
    have hst := h st (List.mem_cons_self _ _)
    have hrest := fun x hx => h x (List.mem_cons_of_mem _ hx)
    cases st with
    | eval e => simp [LoopStep.isEval] at hst
    | goto u =>
      rcases hr : env.stepRes k i with v | m | _
      · rcases hrec : runLoopSteps env k rest (i + 1) l with ⟨e2, r2⟩
        have hmain := ih (i + 1) l hrest
        rw [hrec] at hmain
        simp only [runLoopSteps, hr, hrec]
        simpa using hmain
      · simp only [runLoopSteps, hr]
        right
        trivial
      · simp only [runLoopSteps, hr]
        right
        trivial
    | click sel =>
      rcases hr : env.stepRes k i with v | m | _
      · rcases hrec : runLoopSteps env k rest (i + 1) l with ⟨e2, r2⟩
        have hmain := ih (i + 1) l hrest
        rw [hrec] at hmain
        simp only [runLoopSteps, hr, hrec]
        simpa using hmain
      · simp only [runLoopSteps, hr]
        right
        trivial
      · simp only [runLoopSteps, hr]
        right
        trivial
    | screenshot pp =>
      rcases hr : env.stepRes k i with v | m | _
      · rcases hrec : runLoopSteps env k rest (i + 1) l with ⟨e2, r2⟩
        have hmain := ih (i + 1) l hrest
        rw [hrec] at hmain
        simp only [runLoopSteps, hr, hrec]
        simpa using hmain
      · simp only [runLoopSteps, hr]
        right
        trivial
      · simp only [runLoopSteps, hr]
        right
        trivial
    | wait n =>
      rcases hrec : runLoopSteps env k rest (i + 1) l with ⟨e2, r2⟩
      have hmain := ih (i + 1) l hrest
      rw [hrec] at hmain
      simp only [runLoopSteps, hrec]
      simpa using hmain
    | unknown c =>
      rcases hrec : runLoopSteps env k rest (i + 1) l with ⟨e2, r2⟩
      have hmain := ih (i + 1) l hrest
      rw [hrec] at hmain
      simp only [runLoopSteps, hrec]
      simpa using hmain

/-- C10: `state.lastOutput` is written only by an `eval` step and never
reset at an iteration boundary: (a) a pass over eval-free steps leaves the
carried `lastOutput` untouched (it either completes with the old value or
exits the process); (b) a loop-body execution over eval-free steps
preserves `state.lastOutput` whenever the loop survives it; (c) therefore
the end-of-iteration marker check tests the output of the most recent eval
of an earlier iteration: an eval-free in-bound iteration whose inherited
`lastOutput` contains the marker transitions to `completed`. -/
theorem C10_lastOutput_frame :
    (∀ (env : LoopEnv) (k : Nat) (steps : List LoopStep) (i : Nat) (l : J),
      (∀ st ∈ steps, st.isEval = false) →
      (runLoopSteps env k steps i l).2 = .passOk l ∨
      (runLoopSteps env k steps i l).2 = .passExited) ∧
    (∀ (cfg : LoopCfg) (env : LoopEnv) (s s' : LoopState) (effs : List LoopEff),
      (∀ st ∈ cfg.steps, st.isEval = false) →
      loopIteration cfg env s = .normal s' effs →
      s'.lastOutput = s.lastOutput) ∧
    (∀ (cfg : LoopCfg) (env : LoopEnv) (s : LoopState),
      (∀ st ∈ cfg.steps, st.isEval = false) →
      s.iteration + 1 ≤ cfg.maxIterations →
      env.elapsed (s.iteration + 1) ≤ cfg.maxRuntime →
      (runLoopSteps env (s.iteration + 1) cfg.steps 0 s.lastOutput).2
        ≠ .passExited →
      outputHasMarker s.lastOutput cfg.marker = true →
      loopIteration cfg env s = .normal
        { s with iteration := s.iteration + 1, status := "completed" }
        (runLoopSteps env (s.iteration + 1) cfg.steps 0 s.lastOutput).1) := by
  refine ⟨?_, ?_, ?_⟩
  · intro env k steps i l h
    exact runLoopSteps_no_eval env k steps i l h
  · intro cfg env s s' effs hnoeval heq
    by_cases h1 : s.iteration + 1 > cfg.maxIterations
    · rw [loopIteration_max_break cfg env s h1] at heq
      cases heq
      rfl
    · by_cases h2 : env.elapsed (s.iteration + 1) > cfg.maxRuntime
      · rw [loopIteration_timeout_break cfg env s h1 h2] at heq
        cases heq
        rfl
      · rcases hpass : runLoopSteps env (s.iteration + 1) cfg.steps 0 s.lastOutput
          with ⟨e0, pr⟩
        have hd := runLoopSteps_no_eval env (s.iteration + 1) cfg.steps 0
          s.lastOutput hnoeval
        rw [hpass] at hd
        simp only at hd
        cases pr with
        | passExited =>
          rw [loopIteration_exited cfg env s e0 h1 h2 hpass] at heq
          cases heq
        | passThrew m lout =>
          rcases hd with h | h <;> cases h
        | passOk lout =>
          have hlo : lout = s.lastOutput := by
            rcases hd with h | h
            · injection h
            · cases h
          subst hlo
          by_cases h3 : outputHasMarker s.lastOutput cfg.marker = true
          · rw [loopIteration_output_marker cfg env s e0 s.lastOutput (by omega)
              (by omega) hpass h3] at heq
            cases heq
            rfl
          · have h3f : outputHasMarker s.lastOutput cfg.marker = false := by
              simpa using h3
            by_cases h4 : fileHasMarker (env.fileContent (s.iteration + 1))
                cfg.marker = true
            · rw [loopIteration_file_marker cfg env s e0 s.lastOutput (by omega)
                (by omega) hpass h3f h4] at heq
              cases heq
              rfl
            · have h4f : fileHasMarker (env.fileContent (s.iteration + 1))
                  cfg.marker = false := by simpa using h4
              rw [loopIteration_success cfg env s e0 s.lastOutput (by omega)
                (by omega) hpass h3f h4f] at heq
              cases heq
              rfl
  · intro cfg env s hnoeval hit ht hnex hm
    rcases hpass : runLoopSteps env (s.iteration + 1) cfg.steps 0 s.lastOutput
      with ⟨e0, pr⟩
    have hd := runLoopSteps_no_eval env (s.iteration + 1) cfg.steps 0
      s.lastOutput hnoeval
    rw [hpass] at hd
    simp only at hd
    rw [hpass] at hnex
    simp only at hnex
    have hok : pr = .passOk s.lastOutput := by
      rcases hd with h | h
      · exact h
      · exact absurd h hnex
    subst hok
    exact loopIteration_output_marker cfg env s e0 s.lastOutput hit ht hpass hm

/-- Witness for C10: an eval-free iteration inherits the marker-bearing
output of an earlier iteration and completes without producing any output
itself. -/
theorem C10_lastOutput_frame_witness :
    loopIteration cfgC10 envC1
        { iteration := 1, completedRecs := [1], status := "running",
          lastOutput := J.jstr "xx LOOP_COMPLETE yy", errors := [] }
      = .normal
          { iteration := 2, completedRecs := [1], status := "completed",
            lastOutput := J.jstr "xx LOOP_COMPLETE yy", errors := [] }
          [LoopEff.execStep 2 0 (LoopStep.wait 1)] ∧
    (runLoopSteps envC1 5 cfgC10.steps 0 (J.jstr "quiet")).2
      = .passOk (J.jstr "quiet") := by
  constructor
  · have h := C10_lastOutput_frame.2.2 cfgC10 envC1
      { iteration := 1, completedRecs := [1], status := "running",
        lastOutput := J.jstr "xx LOOP_COMPLETE yy", errors := [] }
      (by decide) (by decide) (by decide)
      (by intro hcon; exact PassResult.noConfusion hcon) (by decide)
    exact h
  · rcases C10_lastOutput_frame.1 envC1 5 cfgC10.steps 0 (J.jstr "quiet")
      (by decide) with h | h
    · exact h
    · exact absurd h (by intro hcon; exact PassResult.noConfusion hcon)

theorem runLoopSteps_stepRes_eq (env envB : LoopEnv)
    (hres : env.stepRes = envB.stepRes) (k : Nat) :
    ∀ (steps : List LoopStep) (i : Nat) (l : J),
      runLoopSteps env k steps i l = runLoopSteps envB k steps i l := by
  intro steps
  induction steps with
  | nil => intro i l; rfl
  | cons st rest ih =>
    intro i l
    have hr : env.stepRes k i = envB.stepRes k i := by rw [hres]
    cases st with
    | goto u => simp only [runLoopSteps, hr, ih]
    | click sel => simp only [runLoopSteps, hr, ih]
    | screenshot pp => simp only [runLoopSteps, hr, ih]
    | eval e => simp only [runLoopSteps, hr, ih]
    | wait n => simp only [runLoopSteps, ih]
    | unknown c => simp only [runLoopSteps, ih]

/-- The steps a loop-body execution runs are determined by the parsed
configuration and the per-step oracle alone: two environments that agree on
step results and the clock produce identical executed-step traces, whatever
either one's task file on disk says. -/
theorem loopIteration_execEffs_file_agnostic (cfg : LoopCfg) (env envB : LoopEnv)
    (hres : env.stepRes = envB.stepRes) (hela : env.elapsed = envB.elapsed)
    (s : LoopState) :
    execEffs (iterEffs (loopIteration cfg env s))
      = execEffs (iterEffs (loopIteration cfg envB s)) := by
  have hel : envB.elapsed (s.iteration + 1) = env.elapsed (s.iteration + 1) := by
    rw [hela]
  by_cases h1 : s.iteration + 1 > cfg.maxIterations
  · rw [loopIteration_max_break cfg env s h1, loopIteration_max_break cfg envB s h1]
  · by_cases h2 : env.elapsed (s.iteration + 1) > cfg.maxRuntime
    · rw [loopIteration_timeout_break cfg env s h1 h2,
        loopIteration_timeout_break cfg envB s h1 (by rw [hel]; exact h2)]
    · have h2b : ¬ envB.elapsed (s.iteration + 1) > cfg.maxRuntime := by
        rw [hel]; exact h2
      rcases hpass : runLoopSteps env (s.iteration + 1) cfg.steps 0 s.lastOutput
        with ⟨e0, pr⟩
      have hpassB : runLoopSteps envB (s.iteration + 1) cfg.steps 0 s.lastOutput
          = (e0, pr) := by
        rw [← runLoopSteps_stepRes_eq env envB hres]
        exact hpass
      cases pr with
      | passExited =>
        rw [loopIteration_exited cfg env s e0 h1 h2 hpass,
          loopIteration_exited cfg envB s e0 h1 h2b hpassB]
      | passThrew m lout =>
        rw [loopIteration_throw cfg env s e0 m lout (by omega) (by omega) hpass,
          loopIteration_throw cfg envB s e0 m lout (by omega) (by omega) hpassB]
      | passOk lout =>
        by_cases h3 : outputHasMarker lout cfg.marker = true
        · rw [loopIteration_output_marker cfg env s e0 lout (by omega) (by omega)
            hpass h3,
            loopIteration_output_marker cfg envB s e0 lout (by omega) (by omega)
            hpassB h3]
        · have h3f : outputHasMarker lout cfg.marker = false := by simpa using h3
          by_cases h4 : fileHasMarker (env.fileContent (s.iteration + 1))
              cfg.marker = true
          · rw [loopIteration_file_marker cfg env s e0 lout (by omega) (by omega)
              hpass h3f h4]
            by_cases h4b : fileHasMarker (envB.fileContent (s.iteration + 1))
                cfg.marker = true
            · rw [loopIteration_file_marker cfg envB s e0 lout (by omega) (by omega)
                hpassB h3f h4b]
            · have h4bf : fileHasMarker (envB.fileContent (s.iteration + 1))
                  cfg.marker = false := by simpa using h4b
              rw [loopIteration_success cfg envB s e0 lout (by omega) (by omega)
                hpassB h3f h4bf]
              simp [iterEffs, execEffs_append, execEffs_checkpoint]
          · have h4f : fileHasMarker (env.fileContent (s.iteration + 1))
                cfg.marker = false := by simpa using h4
            rw [loopIteration_success cfg env s e0 lout (by omega) (by omega)
              hpass h3f h4f]
            by_cases h4b : fileHasMarker (envB.fileContent (s.iteration + 1))
                cfg.marker = true
            · rw [loopIteration_file_marker cfg envB s e0 lout (by omega) (by omega)
                hpassB h3f h4b]
              simp [iterEffs, execEffs_append, execEffs_checkpoint]
            · have h4bf : fileHasMarker (envB.fileContent (s.iteration + 1))
                  cfg.marker = false := by simpa using h4b
              rw [loopIteration_success cfg envB s e0 lout (by omega) (by omega)
                hpassB h3f h4bf]

/-- Counterexample to C5 as stated: the environment's task file holds
`editedTaskContent` — a task whose steps are a `click` — from the very
first completion check on, yet both iterations of the run still execute the
`eval` step parsed before the loop started; the externally edited steps are
never picked up, because the loop re-reads the file only to search it for
the completion marker. -/
theorem C5_task_reread_counterexample :
    envC5.fileContent 2 = some editedTaskContent ∧
    jsIncludes editedTaskContent "click" = true ∧
    cfgC5.steps = [LoopStep.eval "document.title"] ∧
    execEffs (loopRunEffs (cmdLoopRun cfgC5 envC5 10))
      = [LoopEff.execStep 1 0 (LoopStep.eval "document.title"),
         LoopEff.execStep 2 0 (LoopStep.eval "document.title")] ∧
    (loopRunFinal (cmdLoopRun cfgC5 envC5 10)).map LoopState.status
      = some "max_iterations" := by
  exact ⟨rfl, by decide, rfl, rfl, rfl⟩

/-- C5 amended: the task's steps are parsed once, before the loop; on each
iteration the loop re-reads the task source only for the completion check,
so an external edit is visible to completion detection but not to the
executed steps: (a) two environments agreeing on step results and the clock
yield identical executed-step traces regardless of what either one's task
file says; (b) if the re-read source now contains `DONE` (or the marker),
the iteration transitions to `completed` — without the executed steps
changing. -/
theorem C5_task_reread :
    (∀ (cfg : LoopCfg) (env envB : LoopEnv) (s : LoopState),
      env.stepRes = envB.stepRes → env.elapsed = envB.elapsed →
      execEffs (iterEffs (loopIteration cfg env s))
        = execEffs (iterEffs (loopIteration cfg envB s))) ∧
    (∀ (cfg : LoopCfg) (env : LoopEnv) (s : LoopState) (e : List LoopEff)
       (lout : J) (c : String),
      s.iteration + 1 ≤ cfg.maxIterations →
      env.elapsed (s.iteration + 1) ≤ cfg.maxRuntime →
      runLoopSteps env (s.iteration + 1) cfg.steps 0 s.lastOutput
        = (e, .passOk lout) →
      outputHasMarker lout cfg.marker = false →
      env.fileContent (s.iteration + 1) = some c →
      jsIncludes c "DONE" = true →
      loopIteration cfg env s = .normal
        { s with iteration := s.iteration + 1, lastOutput := lout,
                 status := "completed" } e) := by
  constructor
  · intro cfg env envB s hres hela
    exact loopIteration_execEffs_file_agnostic cfg env envB hres hela s
  · intro cfg env s e lout c hit ht hpass hm hfc hdone
    apply loopIteration_file_marker cfg env s e lout hit ht hpass hm
    rw [hfc]
    simp [fileHasMarker, hdone]

/-- Witness for C5 (amended): removing the task file entirely changes no
executed step of an iteration, while a file rewritten to contain `DONE`
completes the iteration. -/
theorem C5_task_reread_witness :
    execEffs (iterEffs (loopIteration cfgC5 envC5 loopInit))
      = execEffs (iterEffs (loopIteration cfgC5
          ⟨envC5.stepRes, fun _ => none, envC5.elapsed⟩ loopInit)) ∧
    loopIteration cfgC5
        ⟨envC5.stepRes, fun _ => some "all DONE", envC5.elapsed⟩ loopInit
      = .normal
          { iteration := 1, completedRecs := [], status := "completed",
            lastOutput := J.jstr "working", errors := [] }
          [LoopEff.execStep 1 0 (LoopStep.eval "document.title")] := by
  constructor
  · exact C5_task_reread.1 cfgC5 envC5
      ⟨envC5.stepRes, fun _ => none, envC5.elapsed⟩ loopInit rfl rfl
  · exact C5_task_reread.2 cfgC5
      ⟨envC5.stepRes, fun _ => some "all DONE", envC5.elapsed⟩ loopInit
      [LoopEff.execStep 1 0 (LoopStep.eval "document.title")]
      (J.jstr "working") "all DONE"
      (by decide) (by decide) rfl (by decide) rfl (by decide)
